import Mathlib

/-!
# Verification of the sequelize association helpers (`associations/helpers.ts`)

A shallow embedding of the association-declaration helpers:
`checkNamingCollision`, `addForeignKeyConstraints`, `mixinMethods`,
`assertAssociationUnique`, `getAssociationsIncompatibilityStatus`,
`defineAssociation`, `normalizeBaseAssociationOptions` and
`normalizeForeignKeyOptions`.

JavaScript option bags are embedded as `Value` (a JSON-like tree whose
objects are insertion-ordered key/value lists with unique keys, like JS
plain objects; arrays are not needed by any compared option shape and are
omitted from the value grammar).  Mutation of a model is embedded as
explicit state passing over `SourceState`; thrown exceptions become
`Except DeclError`.  External collaborators that live outside the source
files under scrutiny (the pluralization functions, the `Association` base
constructor, hook callbacks, `isSameInitialModel`) are either taken as
explicit function parameters or modelled from the specification, as
documented on each definition.
-/

set_option autoImplicit false

namespace SequelizeAssoc

mutual

/-- A JavaScript runtime value, as far as the association helpers inspect
one: `undefined` is the JS `undefined`; objects are insertion-ordered
key/value sequences (keys unique, as for JS plain objects). -/
inductive Value where
  | undefined : Value
  | null : Value
  | bool : Bool → Value
  | num : Int → Value
  | str : String → Value
  | obj : ObjFields → Value
deriving DecidableEq

/-- The field list of a JS plain object, in insertion order. -/
inductive ObjFields where
  | nil : ObjFields
  | cons (key : String) (val : Value) (tail : ObjFields) : ObjFields
deriving DecidableEq

end

/-! ## JS plain-object operations used by the source -/

/-- Property lookup in a field list: the value under the first matching key. -/
def ObjFields.lookup : ObjFields → String → Option Value
  | .nil, _ => none
  | .cons k v tl, key => if k = key then some v else tl.lookup key

/-- Key-membership in a field list (a key is present even when its value is
`undefined`, as for the JS `in` operator). -/
def ObjFields.hasField : ObjFields → String → Bool
  | .nil, _ => false
  | .cons k _ tl, key => k = key || tl.hasField key

/-- Assignment of key `key` in an object literal (`{...o, key: v}`): an
existing key keeps its position and receives the new value, a fresh key is
appended at the end. -/
def ObjFields.setField : ObjFields → String → Value → ObjFields
  | .nil, key, v => .cons key v .nil
  | .cons k w tl, key, v =>
    if k = key then .cons k v tl else .cons k w (tl.setField key v)

/-- Removal of every field named `key` (lodash `omit(o, key)` on the field
list). -/
def ObjFields.eraseField : ObjFields → String → ObjFields
  | .nil, _ => .nil
  | .cons k v tl, key =>
    if k = key then tl.eraseField key else .cons k v (tl.eraseField key)

/-- Removal of every field whose value is `undefined` (shallow). -/
def ObjFields.stripUndefined : ObjFields → ObjFields
  | .nil => .nil
  | .cons k v tl =>
    if v = .undefined then tl.stripUndefined else .cons k v (tl.stripUndefined)

/-- JS property read `o[k]` (also the optional chain `o?.[k]`): `undefined`
when the key is absent or when `o` is not an object. -/
def getKey (o : Value) (k : String) : Value :=
  match o with
  | .obj fields => (fields.lookup k).getD .undefined
  | _ => .undefined

/-- JS `k in o` / `Object.prototype.hasOwnProperty.call(o, k)`. -/
def hasKey (o : Value) (k : String) : Bool :=
  match o with
  | .obj fields => fields.hasField k
  | _ => false

/-- JS spread `{...o}`: the fields of an object, nothing for
`undefined`/`null`/primitives (the source only ever spreads plain objects
or `undefined`). -/
def spreadFields (o : Value) : ObjFields :=
  match o with
  | .obj fields => fields
  | _ => .nil

/-- lodash `omit(o, k)`: a copy of the object without key `k`. -/
def omitKey (o : Value) (k : String) : Value :=
  match o with
  | .obj fields => .obj (fields.eraseField k)
  | v => v

/-- The function `removeUndefined` from `utils/object.js` (lodash
`omitBy(_, isUndefined)`): drops every key whose value is `undefined`. -/
def removeUndefined (o : Value) : Value :=
  match o with
  | .obj fields => .obj fields.stripUndefined
  | v => v

/-- JS truthiness, as used by `if (options?.as)` and `if (normalizedOptions.hooks)`. -/
def truthy : Value → Bool
  | .undefined => false
  | .null => false
  | .bool b => b
  | .num n => n ≠ 0
  | .str s => s ≠ ""
  | .obj _ => true

/-- JS nullish coalescing `a ?? b`. -/
def coalesce (a b : Value) : Value :=
  match a with
  | .undefined => b
  | .null => b
  | v => v

/-- JS coercion of a value to a property key string (only strings appear as
aliases in practice; the other cases follow JS `ToString`). -/
def Value.toKeyString : Value → String
  | .str s => s
  | .undefined => "undefined"
  | .null => "null"
  | .bool b => if b then "true" else "false"
  | .num n => toString n
  | .obj _ => "[object Object]"

/-- A total order on character lists (lexicographic by code point) — only
used to pick a canonical field order; any total order would do. -/
def charListLe : List Char → List Char → Bool
  | [], _ => true
  | _ :: _, [] => false
  | c :: cs, d :: ds =>
    c.toNat < d.toNat || (c.toNat = d.toNat && charListLe cs ds)

/-- The induced total order on strings. -/
def strLe (a b : String) : Bool := charListLe a.data b.data

/-- Ordered insertion by key — helper for the canonical form. -/
def ObjFields.insertSorted (key : String) (v : Value) : ObjFields → ObjFields
  | .nil => .cons key v .nil
  | .cons k w tl =>
    if strLe key k then .cons key v (.cons k w tl) else .cons k w (tl.insertSorted key v)

/-- Key-sorting of a field list — helper for the canonical form. -/
def ObjFields.sortFields : ObjFields → ObjFields
  | .nil => .nil
  | .cons k v tl => (tl.sortFields).insertSorted k v

mutual

/-- Canonical form of a value: object fields recursively sorted by key.
lodash `isEqual` compares plain objects by key set and per-key value,
insensitive to insertion order; on canonical forms it agrees with
syntactic equality. -/
def Value.canon : Value → Value
  | .undefined => .undefined
  | .null => .null
  | .bool b => .bool b
  | .num n => .num n
  | .str s => .str s
  | .obj fs => .obj fs.canonFields.sortFields

/-- Pointwise canonical form of a field list. -/
def ObjFields.canonFields : ObjFields → ObjFields
  | .nil => .nil
  | .cons k v tl => .cons k v.canon tl.canonFields

end

/-- lodash `isEqual` (deep structural equality, key-order insensitive on
plain objects), restricted to the JSON-like values the helper compares. -/
def isEqual (a b : Value) : Bool :=
  a.canon = b.canon

/-! ## Models, associations and the per-model registry state -/

/-- The slice of a sequelize model class (`ModelStatic`) that the helpers
inspect.  `isModel` embeds `isModelStatic`; `isInitialized` embeds
`model.sequelize` being set; `initialModelId` identifies the initial model
a (possibly schema-scoped copy of a) model originates from;
`nameSingular`/`namePlural` embed `model.options.name`. -/
structure ModelRef where
  name : String
  initialModelId : Nat
  isModel : Bool
  isInitialized : Bool
  nameSingular : String
  namePlural : String
deriving DecidableEq

/-- Modelled from the spec: `isSameInitialModel` from `utils/model-utils.js`
(not under `src/`).  Per §3 of the spec, two model values are the same
initial model when both are model classes originating from the same
initial model, regardless of wrapping/copying; name equality and identity
are explicitly not the test. -/
def isSameInitialModel (a b : ModelRef) : Bool :=
  a.isModel && b.isModel && a.initialModelId = b.initialModelId

/-- The persistent association record, as far as the helpers inspect it:
`id` stands for the JS object identity of an `Association` instance
(`construct` allocates fresh ids), `hasParentAssociation` embeds
`association.parentAssociation` being set, and `rootIsSelf` embeds
`association.rootAssociation === association`. -/
structure AssocRecord where
  id : Nat
  associationType : String
  asName : String
  target : ModelRef
  options : Value
  hasParentAssociation : Bool
  rootIsSelf : Bool
deriving DecidableEq

/-- The mutable state of a source model that the helpers read and write:
the own keys of `source.getAttributes()` and the association registry
`source.associations` (an insertion-ordered map from alias to
association). -/
structure SourceState where
  attributes : List String
  associations : List (String × AssocRecord)
deriving DecidableEq

/-- Registry read `source.associations[asName]`. -/
def lookupAssoc (st : SourceState) (asName : String) : Option AssocRecord :=
  (st.associations.find? (fun p => p.1 = asName)).map (fun p => p.2)

/-- Registry write `source.associations[asName] = a` (JS map semantics: an
existing key keeps its position, a fresh key is appended). -/
def registerAssoc (st : SourceState) (asName : String) (a : AssocRecord) : SourceState :=
  { st with
    associations :=
      if st.associations.any (fun p => p.1 = asName) then
        st.associations.map (fun p => if p.1 = asName then (asName, a) else p)
      else
        st.associations ++ [(asName, a)] }

/-! ## Errors -/

/-- The classifier verdict `IncompatibilityStatus` (the source encodes it as
a numeric enum; `null` is embedded as `Option.none` around this type). -/
inductive IncompatibilityStatus where
  | DIFFERENT_TYPES : IncompatibilityStatus
  | DIFFERENT_TARGETS : IncompatibilityStatus
  | DIFFERENT_OPTIONS : IncompatibilityStatus
deriving DecidableEq

/-- Which of the two `AssociationError` messages `assertAssociationUnique`
throws: the short same-name message, or the detailed incompatibility
message (which embeds the classifier verdict). -/
inductive AssocConflict where
  | sameName : AssocConflict
  | incompatible (status : Option IncompatibilityStatus) : AssocConflict
deriving DecidableEq

/-- The failure kinds of a declaration call.  The source raises these as
thrown `Error`/`AssociationError` objects; the embedding records the kind
and the data the claims mention (message strings are not modelled, and the
`cause` chained onto a wrapped construction failure is dropped). -/
inductive DeclError where
  | notAModel : DeclError
  | modelNotInitialized (modelName : String) : DeclError
  | renamedOption (oldKey : String) : DeclError
  | assertionFailed : DeclError
  | namingCollision (modelName attrName : String) : DeclError
  | associationError (conflict : AssocConflict) : DeclError
  | constructionFailed (hasParent : Bool) : DeclError
deriving DecidableEq

/-! ## The helpers under verification -/

/-- Embedding of `checkNamingCollision(source, associationName)`: fails when
the candidate alias is an own key of `source.getAttributes()`. -/
def checkNamingCollision (sourceName : String) (attributes : List String)
    (associationName : String) : Except DeclError Unit :=
  if attributes.contains associationName then
    .error (.namingCollision sourceName associationName)
  else
    .ok ()

/-- Embedding of `getAssociationsIncompatibilityStatus(existingAssociation,
newAssociationType, newTarget, newOptions)`: first verdict wins —
different type names, then targets that are not the same initial model,
then options (with `inverse` omitted on both sides) that are not deeply
equal; `none` means compatible. -/
def getAssociationsIncompatibilityStatus (existingAssociation : AssocRecord)
    (newTypeName : String) (newTarget : ModelRef) (newOptions : Value) :
    Option IncompatibilityStatus :=
  if existingAssociation.associationType ≠ newTypeName then
    some .DIFFERENT_TYPES
  else if ¬ isSameInitialModel existingAssociation.target newTarget then
    some .DIFFERENT_TARGETS
  else if ¬ isEqual (omitKey existingAssociation.options "inverse") (omitKey newOptions "inverse") then
    some .DIFFERENT_OPTIONS
  else
    none

/-- Embedding of `assertAssociationUnique(type, source, target, options,
parent)`: nothing to check when the alias is free; an existing association
is tolerated exactly when the call or the existing association is part of
a composite chain and the classifier verdict is `null`; otherwise one of
the two `AssociationError` messages is thrown. -/
def assertAssociationUnique (typeName : String) (target : ModelRef)
    (options : Value) (parent : Option AssocRecord) (st : SourceState) :
    Except DeclError Unit :=
  let asName := (getKey options "as").toKeyString
  match lookupAssoc st asName with
  | none => .ok ()
  | some existingAssociation =>
    let incompatibilityStatus :=
      getAssociationsIncompatibilityStatus existingAssociation typeName target options
    if (parent.isSome || existingAssociation.hasParentAssociation)
        && incompatibilityStatus = none then
      .ok ()
    else if parent.isNone && existingAssociation.rootIsSelf then
      .error (.associationError .sameName)
    else
      .error (.associationError (.incompatible incompatibilityStatus))

/-- Embedding of `assertAssociationModelIsDefined(model)`: fails when the
model has no `sequelize` attached yet. -/
def assertAssociationModelIsDefined (model : ModelRef) : Except DeclError Unit :=
  if ¬ model.isInitialized then
    .error (.modelNotInitialized model.name)
  else
    .ok ()

instance {ε α : Type} [DecidableEq ε] [DecidableEq α] : DecidableEq (Except ε α)
  | .error e, .error e' =>
    if h : e = e' then .isTrue (by rw [h]) else .isFalse (fun hh => h (by injection hh))
  | .error _, .ok _ => .isFalse (fun h => Except.noConfusion h)
  | .ok _, .error _ => .isFalse (fun h => Except.noConfusion h)
  | .ok a, .ok a' =>
    if h : a = a' then .isTrue (by rw [h]) else .isFalse (fun hh => h (by injection hh))

/-- The outcome of one `defineAssociation` call: the source model state
after the call, the returned association or the thrown error, and how many
times `checkNamingCollision` ran during the call. -/
structure DeclResult where
  state : SourceState
  result : Except DeclError AssocRecord
  collisionChecksRun : Nat
deriving DecidableEq

/-- Embedding of `defineAssociation(type, source, target, options, parent,
normalizeOptions, construct)`.  `typeName` is `type.name`;
`normalizeOptions` and `construct` are the caller-supplied collaborators of
the source function (with `type`, `source` and `target` already applied;
`construct` additionally threads the mutable source state, since the real
builders mutate the models and may throw).  `beforeAssociate` and
`afterAssociate` embed the hook callbacks dispatched by
`source.hooks.runSync`; they receive and may mutate the source model state
(their ability to mutate the normalized options object is not needed by
any claim and is not modelled).  The deprecation getter installed for the
legacy `sequelize` option is a non-enumerable property and invisible to
every operation modelled here, so it is omitted. -/
def defineAssociation (typeName : String) (source target : ModelRef)
    (options : Value) (parent : Option AssocRecord)
    (normalizeOptions : Value → Except DeclError Value)
    (construct : Value → SourceState → SourceState × Except DeclError AssocRecord)
    (beforeAssociate afterAssociate : SourceState → SourceState)
    (st : SourceState) : DeclResult :=
  if ¬ target.isModel then
    ⟨st, .error .notAModel, 0⟩
  else if ¬ source.isInitialized then
    ⟨st, .error (.modelNotInitialized source.name), 0⟩
  else if ¬ target.isInitialized then
    ⟨st, .error (.modelNotInitialized target.name), 0⟩
  else
    match normalizeOptions options with
    | .error e => ⟨st, .error e, 0⟩
    | .ok normalizedOptions =>
      let asName := (getKey normalizedOptions "as").toKeyString
      match checkNamingCollision source.name st.attributes asName with
      | .error e => ⟨st, .error e, 1⟩
      | .ok _ =>
        match assertAssociationUnique typeName target normalizedOptions parent st with
        | .error e => ⟨st, .error e, 1⟩
        | .ok _ =>
          let hooksEnabled := truthy (getKey normalizedOptions "hooks")
          let st1 := if hooksEnabled then beforeAssociate st else st
          let afterConstruction := fun (st2 : SourceState) (association : AssocRecord) =>
            let st3 := if hooksEnabled then afterAssociate st2 else st2
            match checkNamingCollision source.name st3.attributes asName with
            | .error e => DeclResult.mk st3 (.error e) 2
            | .ok _ => DeclResult.mk st3 (.ok association) 2
          match lookupAssoc st1 asName with
          | some existing => afterConstruction st1 existing
          | none =>
            match construct normalizedOptions st1 with
            | (st2, .ok association) => afterConstruction st2 association
            | (st2, .error _) => ⟨st2, .error (.constructionFailed parent.isSome), 1⟩

/-- Modelled from the spec: a *successful* run of the type-specific builder
(the `Association` constructors are not under `src/`), partially applied
to everything but the normalized options and the state, as
`defineAssociation` receives it.  Per §3 and §4.4 of the spec the base
constructor builds the association record for the resolved alias and
registers it on the source model's registry (the registry write that
makes the reuse read inside `defineAssociation` meaningful).  `freshId`
stands for the identity of the newly allocated instance; a constructed
association is its own root unless a parent is supplied.  This models
only the success path; real builders can also throw *after* that
registration — see `constructRegisterThenThrow`. -/
def constructAndRegister (typeName : String) (target : ModelRef)
    (parent : Option AssocRecord) (freshId : Nat)
    (normalizedOptions : Value) (st : SourceState) :
    SourceState × Except DeclError AssocRecord :=
  let asName := (getKey normalizedOptions "as").toKeyString
  let association : AssocRecord :=
    { id := freshId
      associationType := typeName
      asName := asName
      target := target
      options := normalizedOptions
      hasParentAssociation := parent.isSome
      rootIsSelf := parent.isNone }
  (registerAssoc st asName association, .ok association)

/-- Modelled from the spec: a *failing* run of the type-specific builder.
Per §4.4 step 8 construction failures are wrapped in an `AssociationError`,
and the subclass constructors run their own validations and
inverse-association creation after `super()` has already written the
registry, so a builder can throw with the association already registered.
This builder registers exactly as `constructAndRegister` does and then
throws; it is used to exhibit the non-atomic construction-failure path. -/
def constructRegisterThenThrow (typeName : String) (target : ModelRef)
    (parent : Option AssocRecord) (freshId : Nat)
    (normalizedOptions : Value) (st : SourceState) :
    SourceState × Except DeclError AssocRecord :=
  ((constructAndRegister typeName target parent freshId normalizedOptions st).1,
    .error .assertionFailed)

/-- Embedding of `normalizeForeignKeyOptions(foreignKey)`: a bare string
becomes `{name: <string>}`; any other input (an options object, or
`undefined` when no foreign key was given) is spread, `name` is set to
`name ?? fieldName`, `fieldName` is set to `undefined`, and
`removeUndefined` then drops the `undefined`-valued keys. -/
def normalizeForeignKeyOptions (foreignKey : Value) : Value :=
  match foreignKey with
  | .str s => .obj (.cons "name" (.str s) .nil)
  | fk =>
    removeUndefined (.obj
      (((spreadFields fk).setField "name"
          (coalesce (getKey fk "name") (getKey fk "fieldName"))).setField
        "fieldName" .undefined))

/-- Embedding of `normalizeBaseAssociationOptions(associationType, options,
source, target)`.  `isMultiAssociation` is `associationType.isMultiAssociation`;
`pluralize` and `singularize` are the external pluralization collaborators
from `utils/string.js` (not under `src/`), taken as parameters.  Rejects
the renamed legacy option keys, resolves the alias and the
singular/plural name pair, normalizes the foreign key, defaults `hooks`
to `false` and strips `undefined`-valued keys from the result. -/
def normalizeBaseAssociationOptions (pluralize singularize : String → String)
    (isMultiAssociation : Bool) (options : Value) (target : ModelRef) :
    Except DeclError Value :=
  if hasKey options "onDelete" || hasKey options "onUpdate" then
    .error (.renamedOption "onDelete")
  else if hasKey options "constraints" then
    .error (.renamedOption "constraints")
  else if hasKey options "foreignKeyConstraint" then
    .error (.renamedOption "foreignKeyConstraint")
  else
    let assemble := fun (nameVal asVal : Value) =>
      removeUndefined (.obj
        (((((spreadFields options).setField "foreignKey"
              (normalizeForeignKeyOptions (getKey options "foreignKey"))).setField
            "hooks" (coalesce (getKey options "hooks") (.bool false))).setField
          "as" asVal).setField "name" nameVal))
    if truthy (getKey options "as") then
      match getKey options "as" with
      | .obj fs =>
        let name := Value.obj fs
        let asVal := if isMultiAssociation then getKey name "plural" else getKey name "singular"
        .ok (assemble name asVal)
      | .str s =>
        let name := Value.obj
          (.cons "plural" (.str (if isMultiAssociation then s else pluralize s))
            (.cons "singular" (.str (if isMultiAssociation then singularize s else s)) .nil))
        .ok (assemble name (.str s))
      | _ => .error .assertionFailed
    else
      let name := Value.obj
        (.cons "singular" (.str target.nameSingular)
          (.cons "plural" (.str target.namePlural) .nil))
      let asVal := Value.str
        (if isMultiAssociation then target.namePlural else target.nameSingular)
      .ok (assemble name asVal)

/-- Modelled from the spec: a concrete instantiation of the external
pluralization collaborator (`pluralize` from `utils/string.js`, not under
`src/`), used only to evaluate concrete scenarios; the theorems about
normalization quantify over arbitrary collaborators.  On the regular nouns
appearing in the scenarios it behaves like the real library. -/
def pluralizeEn (word : String) : String := word ++ "s"

/-- Modelled from the spec: a concrete instantiation of the external
singularization collaborator (`singularize` from `utils/string.js`), used
only to evaluate concrete scenarios. -/
def singularizeEn (word : String) : String :=
  match word.data.reverse with
  | 's' :: rest => ⟨rest.reverse⟩
  | _ => word

/-! ## Constraint deriver -/

/-- The slice of a `ModelAttributeColumnOptions` record that
`addForeignKeyConstraints` reads and writes.  `none` embeds an absent (or
`undefined`/`null`) property; `references` holds the referenced table and
key. -/
structure AttrColumn where
  allowNull : Option Bool
  onDelete : Option String
  onUpdate : Option String
  references : Option (String × Option String)
deriving DecidableEq

/-- The slice of the referenced source model that
`addForeignKeyConstraints` inspects: `getTableName()`, the own keys of
`source.primaryKeys`, and the `field` property of each attribute
(`none` when unset; the source falls back to the attribute name on any
falsy `field`, hence also on an empty string). -/
structure SourceMeta where
  tableName : String
  primaryKeyAttributeNames : List String
  attributeField : String → Option String

/-- The column-level primary-key identifiers of `source`, as computed at
the top of `addForeignKeyConstraints`: the attribute's `field` name when
set (with fallback to the attribute name on any falsy `field`). -/
def columnPrimaryKeys (source : SourceMeta) : List String :=
  source.primaryKeyAttributeNames.map
    (fun primaryKeyAttribute =>
      match source.attributeField primaryKeyAttribute with
      | some f => if f = "" then primaryKeyAttribute else f
      | none => primaryKeyAttribute)

/-- Embedding of `addForeignKeyConstraints(newAttribute, source, options,
key)`.  `foreignKeyConstraints` is `options.foreignKeyConstraints`
(`none` when absent).  A no-op when that option is `false`; otherwise the
column-level primary keys of `source` are computed and, when there is a
single one or the requested key is not among the several, the
`references` descriptor and the `onDelete`/`onUpdate` defaults are
attached (existing values win via `??`). -/
def addForeignKeyConstraints (newAttribute : AttrColumn) (source : SourceMeta)
    (foreignKeyConstraints : Option Bool) (key : String) : AttrColumn :=
  if foreignKeyConstraints ≠ some false then
    let primaryKeys := columnPrimaryKeys source
    if primaryKeys.length = 1 ∨ key ∉ primaryKeys then
      { newAttribute with
        references := some (source.tableName, if key = "" then primaryKeys.head? else some key)
        onDelete := some (newAttribute.onDelete.getD
          (if newAttribute.allowNull ≠ some false then "SET NULL" else "CASCADE"))
        onUpdate := some (newAttribute.onUpdate.getD "CASCADE") }
    else
      newAttribute
  else
    newAttribute

/-! ## Accessor injector -/

/-- The value of a property on the model prototype: either a user-defined
member (tagged by identity), or the forwarding method installed by
`mixinMethods`.  `forward realMethod` stands for the closure
`value(...params) { return association[realMethod](this, ...params) }`. -/
inductive PropValue where
  | user (tag : Nat) : PropValue
  | forward (realMethod : String) : PropValue
deriving DecidableEq

/-- A property descriptor on the model prototype. -/
structure ProtoProp where
  enumerable : Bool
  value : PropValue
deriving DecidableEq

/-- The observable behavior of calling an injected forwarding method: which
association method runs, with which receiver bound and which argument
list.  The receiver is passed as the leading argument. -/
structure AssocInvocation where
  methodName : String
  receiver : Nat
  args : List Value
deriving DecidableEq

/-- Calling the property `prop` on a prototype with receiver `this` and
arguments `args`: a forwarding method produced by `mixinMethods` invokes
`association[realMethod](this, ...args)`; a user-defined member is opaque
(`none`). -/
def invokeProp (prop : ProtoProp) (receiver : Nat) (args : List Value) :
    Option AssocInvocation :=
  match prop.value with
  | .forward realMethod => some ⟨realMethod, receiver, args⟩
  | .user _ => none

/-- The `aliases?.[method] || method` resolution inside the `mixinMethods`
loop (the alias indirection from the public accessor kind to the
association's internal method name; a missing or falsy entry falls back to
the kind itself). -/
def aliasResolve (aliases : Option (String → Option String)) (method : String) : String :=
  match aliases with
  | none => method
  | some f =>
    match f method with
    | some s => if s = "" then method else s
    | none => method

/-- One iteration of the `for (const method of methods)` loop in
`mixinMethods`: resolve the concrete method name through
`association.accessors`, skip when the prototype already has an own
property of that name, otherwise define a non-enumerable forwarding
method for `aliases?.[method] || method`. -/
def mixinOne (accessors : String → String) (aliases : Option (String → Option String))
    (proto : List (String × ProtoProp)) (method : String) : List (String × ProtoProp) :=
  let targetMethodName := accessors method
  if proto.any (fun p => p.1 = targetMethodName) then
    proto
  else
    proto ++ [(targetMethodName, ⟨false, .forward (aliasResolve aliases method)⟩)]

/-- Embedding of `mixinMethods(association, mixinTargetPrototype, methods,
aliases)`.  `accessors` is the lookup `association.accessors[·]`; the
prototype is the list of its own properties in definition order. -/
def mixinMethods (accessors : String → String) (aliases : Option (String → Option String))
    (methods : List String) (proto : List (String × ProtoProp)) :
    List (String × ProtoProp) :=
  methods.foldl (mixinOne accessors aliases) proto

/-- Prototype own-property lookup. -/
def protoLookup (proto : List (String × ProtoProp)) (name : String) : Option ProtoProp :=
  (proto.find? (fun p => p.1 = name)).map (fun p => p.2)

/-! ## Concrete declaration scenarios

These instantiate the embedding on the models of the spec's scenario
section (`User`, `Post`) and are used by the concrete counterexamples and
witnesses below. -/

/-- The `User` model of the spec's scenarios. -/
def userModel : ModelRef :=
  { name := "User", initialModelId := 0, isModel := true, isInitialized := true
    nameSingular := "user", namePlural := "users" }

/-- The `Post` model of the spec's scenarios. -/
def postModel : ModelRef :=
  { name := "Post", initialModelId := 1, isModel := true, isInitialized := true
    nameSingular := "post", namePlural := "posts" }

/-- The raw options `{as: "posts"}`. -/
def postsOptions : Value := .obj (.cons "as" (.str "posts") .nil)

/-- The raw options `{as: "posts", hooks: true}`. -/
def postsHookedOptions : Value :=
  .obj (.cons "as" (.str "posts") (.cons "hooks" (.bool true) .nil))

/-- An initial `User` state: one plain attribute `id`, no associations. -/
def userState0 : SourceState := ⟨["id"], []⟩

/-- The option normalizer for `User.hasMany(Post, ...)`, instantiated with
the concrete pluralization collaborators. -/
def normalizeHasManyPost (options : Value) : Except DeclError Value :=
  normalizeBaseAssociationOptions pluralizeEn singularizeEn true options postModel

/-- The whole declaration `User.hasMany(Post, {as: "posts"})` (no hooks, no
parent), with `freshId` naming the instance the builder would allocate. -/
def declarePosts (freshId : Nat) (st : SourceState) : DeclResult :=
  defineAssociation "HasMany" userModel postModel postsOptions none
    normalizeHasManyPost (constructAndRegister "HasMany" postModel none freshId) id id st

/-- The value of a successful normalization (`undefined` on failure) —
extraction helper for concrete statements. -/
def okValueD (e : Except DeclError Value) : Value :=
  match e with
  | .ok v => v
  | .error _ => .undefined

/-- Whether a declaration call returned an association (did not throw). -/
def DeclResult.succeeded (r : DeclResult) : Bool :=
  match r.result with
  | .ok _ => true
  | .error _ => false

/-! ## Lemma kit: object fields, registry, equality -/

/-- Induction principle for field lists (the mutual recursor of
`Value`/`ObjFields` is inconvenient for the `induction` tactic). -/
theorem ObjFields.inductionOn {motive : ObjFields → Prop} (hnil : motive .nil)
    (hcons : ∀ (k : String) (v : Value) (tl : ObjFields), motive tl → motive (.cons k v tl)) :
    ∀ fs, motive fs
  | .nil => hnil
  | .cons k v tl => hcons k v tl (ObjFields.inductionOn hnil hcons tl)

theorem ObjFields.lookup_setField_self (fs : ObjFields) (k : String) (v : Value) :
    (fs.setField k v).lookup k = some v := by
  induction fs using ObjFields.inductionOn with
  | hnil => simp [ObjFields.setField, ObjFields.lookup]
  | hcons k' w tl ih =>
    by_cases h : k' = k
    · simp [ObjFields.setField, ObjFields.lookup, h]
    · simp [ObjFields.setField, ObjFields.lookup, h, ih]

theorem ObjFields.lookup_setField_ne (fs : ObjFields) (k key : String) (v : Value)
    (h : key ≠ k) : (fs.setField k v).lookup key = fs.lookup key := by
  induction fs using ObjFields.inductionOn with
  | hnil => simp [ObjFields.setField, ObjFields.lookup, Ne.symm h]
  | hcons k' w tl ih =>
    by_cases hk : k' = k
    · subst hk
      simp [ObjFields.setField, ObjFields.lookup, Ne.symm h]
    · by_cases hkey : k' = key
      · simp [ObjFields.setField, ObjFields.lookup, hk, hkey, h]
      · simp [ObjFields.setField, ObjFields.lookup, hk, hkey, ih]

theorem ObjFields.lookup_stripUndefined_of_ne_undef (fs : ObjFields) (k : String)
    (v : Value) (hv : v ≠ .undefined) (h : fs.lookup k = some v) :
    fs.stripUndefined.lookup k = some v := by
  induction fs using ObjFields.inductionOn with
  | hnil => simp [ObjFields.lookup] at h
  | hcons k' w tl ih =>
    by_cases hk : k' = k
    · subst hk
      have hw : w = v := by simpa [ObjFields.lookup] using h
      simp [ObjFields.stripUndefined, ObjFields.lookup, hw, hv]
    · simp only [ObjFields.lookup, if_neg hk] at h
      by_cases hw : w = Value.undefined
      · simp [ObjFields.stripUndefined, hw, ih h]
      · simp [ObjFields.stripUndefined, hw, ObjFields.lookup, hk, ih h]

/-- The keys of a field list, in order. -/
def ObjFields.keys : ObjFields → List String
  | .nil => []
  | .cons k _ tl => k :: tl.keys

theorem ObjFields.hasField_eq_keys_contains (fs : ObjFields) (k : String) :
    fs.hasField k = fs.keys.contains k := by
  induction fs using ObjFields.inductionOn with
  | hnil => simp [ObjFields.hasField, ObjFields.keys]
  | hcons k' v tl ih =>
    by_cases h : k' = k
    · simp [ObjFields.hasField, ObjFields.keys, h]
    · simp [ObjFields.hasField, ObjFields.keys, h, ih, Ne.symm h]

theorem ObjFields.lookup_mem_keys (fs : ObjFields) (k : String) (v : Value)
    (h : fs.lookup k = some v) : k ∈ fs.keys := by
  induction fs using ObjFields.inductionOn with
  | hnil => simp [ObjFields.lookup] at h
  | hcons k' w tl ih =>
    by_cases hk : k' = k
    · simp [ObjFields.keys, hk]
    · simp only [ObjFields.lookup, if_neg hk] at h
      simp [ObjFields.keys, ih h]

theorem ObjFields.hasField_stripUndefined_false (fs : ObjFields) (k : String)
    (h : fs.lookup k = some Value.undefined ∨ fs.lookup k = none)
    (hnd : fs.keys.Nodup) : fs.stripUndefined.hasField k = false := by
  induction fs using ObjFields.inductionOn with
  | hnil => simp [ObjFields.stripUndefined, ObjFields.hasField]
  | hcons k' w tl ih =>
    simp only [ObjFields.keys, List.nodup_cons] at hnd
    by_cases hk : k' = k
    · subst hk
      simp only [ObjFields.lookup, if_pos rfl] at h
      rcases h with h | h
      · have hw : w = Value.undefined := by simpa using h
        subst hw
        simp only [ObjFields.stripUndefined, if_pos rfl]
        have : tl.lookup k' = none := by
          rcases htl : tl.lookup k' with _ | v
          · rfl
          · exact absurd (ObjFields.lookup_mem_keys tl k' v htl) hnd.1
        exact ih (Or.inr this) hnd.2
      · exact absurd h (by simp)
    · simp only [ObjFields.lookup, if_neg hk] at h
      by_cases hw : w = Value.undefined
      · simp only [ObjFields.stripUndefined, if_pos hw]
        exact ih h hnd.2
      · simp only [ObjFields.stripUndefined, if_neg hw, ObjFields.hasField]
        simp [hk, ih h hnd.2]

theorem isEqual_refl (v : Value) : isEqual v v = true := by
  simp [isEqual]

theorem registerAssoc_attributes (st : SourceState) (a : String) (rec : AssocRecord) :
    (registerAssoc st a rec).attributes = st.attributes := by
  simp [registerAssoc]

theorem find?_map_replace (l : List (String × AssocRecord)) (a : String) (rec : AssocRecord)
    (h : l.any (fun p => p.1 = a) = true) :
    (l.map (fun p => if p.1 = a then (a, rec) else p)).find? (fun p => p.1 = a)
      = some (a, rec) := by
  induction l with
  | nil => simp at h
  | cons p tl ih =>
    by_cases hp : p.1 = a
    · simp [hp, List.find?]
    · simp only [List.any_cons, Bool.or_eq_true, decide_eq_true_eq] at h
      rcases h with h | h
      · exact absurd h hp
      · have hd : (decide (p.1 = a)) = false := by simp [hp]
        simp only [List.map_cons, if_neg hp, List.find?_cons, hd]
        exact ih (by simpa using h)

theorem find?_append_fresh (l : List (String × AssocRecord)) (a : String) (rec : AssocRecord)
    (h : l.any (fun p => p.1 = a) = false) :
    (l ++ [(a, rec)]).find? (fun p => p.1 = a) = some (a, rec) := by
  induction l with
  | nil => simp [List.find?]
  | cons p tl ih =>
    simp only [List.any_cons, Bool.or_eq_false_iff] at h
    simp only [List.cons_append, List.find?_cons, h.1]
    exact ih h.2

theorem lookupAssoc_registerAssoc_self (st : SourceState) (a : String) (rec : AssocRecord) :
    lookupAssoc (registerAssoc st a rec) a = some rec := by
  unfold lookupAssoc registerAssoc
  by_cases h : st.associations.any (fun p => p.1 = a) = true
  · simp [h, find?_map_replace st.associations a rec h]
  · rw [Bool.not_eq_true] at h
    simp [h, find?_append_fresh st.associations a rec h]

theorem registerAssoc_length_of_fresh (st : SourceState) (a : String) (rec : AssocRecord)
    (h : lookupAssoc st a = none) :
    (registerAssoc st a rec).associations.length = st.associations.length + 1 := by
  unfold registerAssoc
  have hany : st.associations.any (fun p => p.1 = a) = false := by
    rcases hh : st.associations.any (fun p => p.1 = a) with _ | _
    · rfl
    · exfalso
      rcases List.any_eq_true.mp hh with ⟨p, hmem, hpa⟩
      have hpa' : p.1 = a := by simpa using hpa
      unfold lookupAssoc at h
      rcases hf : st.associations.find? (fun q => q.1 = a) with _ | q
      · have := List.find?_eq_none.mp hf p hmem
        simp [hpa'] at this
      · simp [hf] at h
  simp [hany]

/-- The normalized options produced by `User.hasMany(Post, {as: "posts"})`. -/
def postsNormalizedOptions : Value := okValueD (normalizeHasManyPost postsOptions)

/-- The association record that the first `User.hasMany(Post, {as: "posts"})`
declaration registers. -/
def postsAssocRecord : AssocRecord :=
  { id := 1, associationType := "HasMany", asName := "posts", target := postModel
    options := postsNormalizedOptions, hasParentAssociation := false, rootIsSelf := true }

/-! ## C3 — equivalence classifier -/

/-- C3: the equivalence classifier returns the first matching status in
the fixed order — `DIFFERENT_TYPES` when the existing association's type
name differs from the new one; else `DIFFERENT_TARGETS` when the targets
are not the same initial model (per `isSameInitialModel`); else
`DIFFERENT_OPTIONS` when the two option records with the `inverse` key
removed are not deeply structurally equal; else `none` — and the verdict
is a pure function of exactly those projections of its inputs (so it
cannot depend on, let alone mutate, anything else about the association or
the models). -/
theorem getAssociationsIncompatibilityStatus_spec
    (existingAssociation e' : AssocRecord) (newTypeName : String)
    (newTarget : ModelRef) (newOptions : Value) :
    (getAssociationsIncompatibilityStatus existingAssociation newTypeName newTarget newOptions
        = some .DIFFERENT_TYPES ↔ existingAssociation.associationType ≠ newTypeName)
    ∧ (getAssociationsIncompatibilityStatus existingAssociation newTypeName newTarget newOptions
        = some .DIFFERENT_TARGETS ↔
          existingAssociation.associationType = newTypeName
          ∧ isSameInitialModel existingAssociation.target newTarget = false)
    ∧ (getAssociationsIncompatibilityStatus existingAssociation newTypeName newTarget newOptions
        = some .DIFFERENT_OPTIONS ↔
          existingAssociation.associationType = newTypeName
          ∧ isSameInitialModel existingAssociation.target newTarget = true
          ∧ isEqual (omitKey existingAssociation.options "inverse")
              (omitKey newOptions "inverse") = false)
    ∧ (getAssociationsIncompatibilityStatus existingAssociation newTypeName newTarget newOptions
        = none ↔
          existingAssociation.associationType = newTypeName
          ∧ isSameInitialModel existingAssociation.target newTarget = true
          ∧ isEqual (omitKey existingAssociation.options "inverse")
              (omitKey newOptions "inverse") = true)
    ∧ (e'.associationType = existingAssociation.associationType →
        e'.target = existingAssociation.target →
        e'.options = existingAssociation.options →
        getAssociationsIncompatibilityStatus e' newTypeName newTarget newOptions
          = getAssociationsIncompatibilityStatus existingAssociation newTypeName newTarget newOptions) := by
  unfold getAssociationsIncompatibilityStatus
  refine ⟨?_, ?_, ?_, ?_, ?_⟩
  · by_cases h1 : existingAssociation.associationType = newTypeName <;>
      by_cases h2 : isSameInitialModel existingAssociation.target newTarget = true <;>
      by_cases h3 : isEqual (omitKey existingAssociation.options "inverse")
        (omitKey newOptions "inverse") = true <;>
      simp_all
  · by_cases h1 : existingAssociation.associationType = newTypeName <;>
      by_cases h2 : isSameInitialModel existingAssociation.target newTarget = true <;>
      by_cases h3 : isEqual (omitKey existingAssociation.options "inverse")
        (omitKey newOptions "inverse") = true <;>
      simp_all
  · by_cases h1 : existingAssociation.associationType = newTypeName <;>
      by_cases h2 : isSameInitialModel existingAssociation.target newTarget = true <;>
      by_cases h3 : isEqual (omitKey existingAssociation.options "inverse")
        (omitKey newOptions "inverse") = true <;>
      simp_all
  · by_cases h1 : existingAssociation.associationType = newTypeName <;>
      by_cases h2 : isSameInitialModel existingAssociation.target newTarget = true <;>
      by_cases h3 : isEqual (omitKey existingAssociation.options "inverse")
        (omitKey newOptions "inverse") = true <;>
      simp_all
  · intro hE hT hO
    rw [hE, hT, hO]

/-- A concrete application of the C3 characterization: comparing the
registered `posts` association against an identical redeclaration yields
`none` (compatible). -/
theorem getAssociationsIncompatibilityStatus_spec_witness :
    getAssociationsIncompatibilityStatus postsAssocRecord "HasMany" postModel
      postsNormalizedOptions = none :=
  (getAssociationsIncompatibilityStatus_spec postsAssocRecord postsAssocRecord
    "HasMany" postModel postsNormalizedOptions).2.2.2.1.mpr (by decide)

/-! ## C8 — constraint derivation policy -/

/-- C8: `addForeignKeyConstraints` leaves the attribute entirely unchanged
when `options.foreignKeyConstraints === false`; otherwise a `references`
descriptor (source table plus key) is attached exactly when the source has
a single primary-key column or the requested key is not among the source's
multiple primary-key columns, and in that case `onDelete` is the
caller-supplied value if present, else `SET NULL` for a nullable column
and `CASCADE` otherwise, and `onUpdate` is the caller-supplied value if
present, else `CASCADE`. -/
theorem addForeignKeyConstraints_spec (newAttribute : AttrColumn) (source : SourceMeta)
    (foreignKeyConstraints : Option Bool) (key : String) :
    (foreignKeyConstraints = some false →
      addForeignKeyConstraints newAttribute source foreignKeyConstraints key = newAttribute)
    ∧ (foreignKeyConstraints ≠ some false →
        ¬ ((columnPrimaryKeys source).length = 1 ∨ key ∉ columnPrimaryKeys source) →
        addForeignKeyConstraints newAttribute source foreignKeyConstraints key = newAttribute)
    ∧ (foreignKeyConstraints ≠ some false →
        ((columnPrimaryKeys source).length = 1 ∨ key ∉ columnPrimaryKeys source) →
        (addForeignKeyConstraints newAttribute source foreignKeyConstraints key).references
            = some (source.tableName,
                if key = "" then (columnPrimaryKeys source).head? else some key)
          ∧ (∀ d, newAttribute.onDelete = some d →
              (addForeignKeyConstraints newAttribute source foreignKeyConstraints key).onDelete
                = some d)
          ∧ (newAttribute.onDelete = none →
              (addForeignKeyConstraints newAttribute source foreignKeyConstraints key).onDelete
                = some (if newAttribute.allowNull ≠ some false then "SET NULL" else "CASCADE"))
          ∧ (∀ u, newAttribute.onUpdate = some u →
              (addForeignKeyConstraints newAttribute source foreignKeyConstraints key).onUpdate
                = some u)
          ∧ (newAttribute.onUpdate = none →
              (addForeignKeyConstraints newAttribute source foreignKeyConstraints key).onUpdate
                = some "CASCADE")) := by
  unfold addForeignKeyConstraints
  by_cases hc : foreignKeyConstraints = some false
  · simp [hc]
  · by_cases hp : (columnPrimaryKeys source).length = 1 ∨ key ∉ columnPrimaryKeys source
    · refine ⟨fun h => absurd h hc, fun _ hno => absurd hp hno, fun _ _ => ?_⟩
      refine ⟨by simp [hc, hp], ?_, ?_, ?_, ?_⟩
      · intro d hd
        simp [hc, hp, hd]
      · intro hd
        simp [hc, hp, hd]
      · intro u hu
        simp [hc, hp, hu]
      · intro hu
        simp [hc, hp, hu]
    · exact ⟨fun h => absurd h hc, fun _ _ => by simp [hc, hp], fun _ hyes => absurd hyes hp⟩

/-- A concrete application of C8: deriving the constraint for a fresh
nullable `userId` column referencing `Users.id` yields
`onDelete = SET NULL`, `onUpdate = CASCADE`. -/
theorem addForeignKeyConstraints_spec_witness :
    (addForeignKeyConstraints ⟨none, none, none, none⟩
        ⟨"Users", ["id"], fun _ => none⟩ none "userId").references
      = some ("Users", some "userId")
    ∧ (addForeignKeyConstraints ⟨none, none, none, none⟩
        ⟨"Users", ["id"], fun _ => none⟩ none "userId").onDelete = some "SET NULL"
    ∧ (addForeignKeyConstraints ⟨none, none, none, none⟩
        ⟨"Users", ["id"], fun _ => none⟩ none "userId").onUpdate = some "CASCADE" := by
  have h := (addForeignKeyConstraints_spec ⟨none, none, none, none⟩
    ⟨"Users", ["id"], fun _ => none⟩ none "userId").2.2 (by decide) (Or.inl (by decide))
  refine ⟨by simpa using h.1, by simpa using h.2.2.1 rfl, by simpa using h.2.2.2.2 rfl⟩

/-! ## C9 — accessor injection -/

theorem protoLookup_mixinOne_preserved (accessors : String → String)
    (aliases : Option (String → Option String)) (proto : List (String × ProtoProp))
    (m n : String) (p : ProtoProp) (h : protoLookup proto n = some p) :
    protoLookup (mixinOne accessors aliases proto m) n = some p := by
  unfold mixinOne
  by_cases hany : (proto.any (fun q => q.1 = accessors m)) = true
  · simp only [hany, if_true]
    exact h
  · rw [Bool.not_eq_true] at hany
    simp only [hany, Bool.false_eq_true, if_false]
    unfold protoLookup at h ⊢
    simp only [List.find?_append]
    rcases hf : proto.find? (fun q => q.1 = n) with _ | q
    · simp [hf] at h
    · simpa [hf] using h

theorem protoLookup_mixinMethods_preserved (accessors : String → String)
    (aliases : Option (String → Option String)) (methods : List String)
    (proto : List (String × ProtoProp)) (n : String) (p : ProtoProp)
    (h : protoLookup proto n = some p) :
    protoLookup (mixinMethods accessors aliases methods proto) n = some p := by
  induction methods generalizing proto with
  | nil => simpa [mixinMethods] using h
  | cons m rest ih =>
    exact ih (mixinOne accessors aliases proto m)
      (protoLookup_mixinOne_preserved accessors aliases proto m n p h)

theorem protoLookup_none_iff_any_false (proto : List (String × ProtoProp)) (n : String) :
    protoLookup proto n = none ↔ proto.any (fun q => q.1 = n) = false := by
  unfold protoLookup
  rw [Option.map_eq_none', List.find?_eq_none, List.any_eq_false]

theorem protoLookup_mixinMethods_defines (accessors : String → String)
    (aliases : Option (String → Option String)) (methods : List String)
    (proto : List (String × ProtoProp)) (m : String) (hm : m ∈ methods)
    (hinj : ∀ m' ∈ methods, accessors m' = accessors m → m' = m)
    (h0 : protoLookup proto (accessors m) = none) :
    protoLookup (mixinMethods accessors aliases methods proto) (accessors m)
      = some ⟨false, .forward (aliasResolve aliases m)⟩ := by
  induction methods generalizing proto with
  | nil => cases hm
  | cons m'' rest ih =>
    by_cases hm'' : m'' = m
    · subst hm''
      have hany := (protoLookup_none_iff_any_false proto (accessors m'')).mp h0
      have hstep : protoLookup (mixinOne accessors aliases proto m'') (accessors m'')
          = some ⟨false, .forward (aliasResolve aliases m'')⟩ := by
        unfold mixinOne
        simp only [hany, Bool.false_eq_true, if_false]
        have hnone : proto.find? (fun q => q.1 = accessors m'') = none := by
          unfold protoLookup at h0
          rcases hf : proto.find? (fun q => q.1 = accessors m'') with _ | q
          · exact hf
          · simp [hf] at h0
        unfold protoLookup
        simp [List.find?_append, hnone, List.find?]
      exact protoLookup_mixinMethods_preserved accessors aliases rest _ _ _ hstep
    · have hmr : m ∈ rest := by
        rcases List.mem_cons.mp hm with h | h
        · exact absurd h.symm hm''
        · exact h
      have hne : accessors m'' ≠ accessors m := by
        intro he
        exact hm'' (hinj m'' (List.mem_cons_self m'' rest) he)
      have h0' : protoLookup (mixinOne accessors aliases proto m'') (accessors m) = none := by
        unfold mixinOne
        by_cases hany : (proto.any (fun q => q.1 = accessors m'')) = true
        · simp only [hany, if_true]
          exact h0
        · rw [Bool.not_eq_true] at hany
          simp only [hany, Bool.false_eq_true, if_false]
          unfold protoLookup at h0 ⊢
          rcases hf : proto.find? (fun q => q.1 = accessors m) with _ | q
          · simp [List.find?_append, hf, List.find?, hne]
          · simp [hf] at h0
      exact ih (mixinOne accessors aliases proto m'') hmr
        (fun m' hm' he => hinj m' (List.mem_cons_of_mem m'' hm') he) h0'

/-- C9: for every accessor kind processed by `mixinMethods` (with the
accessor names of distinct kinds distinct, as they are for every
association class), if the prototype already has an own property under
the resolved accessor method name then that property is left untouched;
otherwise a non-enumerable method is defined under the name that forwards
every call — receiver first, then all arguments — to the association's
implementation selected by `aliases?.[method] || method`. -/
theorem mixinMethods_spec (accessors : String → String)
    (aliases : Option (String → Option String)) (methods : List String)
    (proto : List (String × ProtoProp)) (m : String) (p : ProtoProp)
    (hm : m ∈ methods)
    (hinj : ∀ m' ∈ methods, accessors m' = accessors m → m' = m) :
    (protoLookup proto (accessors m) = some p →
      protoLookup (mixinMethods accessors aliases methods proto) (accessors m) = some p)
    ∧ (protoLookup proto (accessors m) = none →
        protoLookup (mixinMethods accessors aliases methods proto) (accessors m)
          = some ⟨false, .forward (aliasResolve aliases m)⟩
        ∧ ∀ (receiver : Nat) (args : List Value),
            invokeProp ⟨false, .forward (aliasResolve aliases m)⟩ receiver args
              = some ⟨aliasResolve aliases m, receiver, args⟩) := by
  constructor
  · intro h
    exact protoLookup_mixinMethods_preserved accessors aliases methods proto _ p h
  · intro h0
    refine ⟨protoLookup_mixinMethods_defines accessors aliases methods proto m hm hinj h0, ?_⟩
    intro receiver args
    rfl

/-- A concrete application of C9: injecting `get`/`set` accessors for the
`posts` association defines a non-enumerable forwarding `getPosts`, while
the user-defined `setPosts` already on the prototype is preserved. -/
theorem mixinMethods_spec_witness :
    (protoLookup
        (mixinMethods (fun m => m ++ "Posts") none ["get", "set"]
          [("setPosts", ⟨true, .user 7⟩)]) "getPosts"
      = some ⟨false, .forward "get"⟩)
    ∧ (protoLookup
        (mixinMethods (fun m => m ++ "Posts") none ["get", "set"]
          [("setPosts", ⟨true, .user 7⟩)]) "setPosts"
      = some ⟨true, .user 7⟩) := by
  have hinjGet : ∀ m' ∈ ["get", "set"],
      (fun m => m ++ "Posts") m' = (fun m => m ++ "Posts") "get" → m' = "get" := by
    intro m' hm' he
    rcases List.mem_cons.mp hm' with h | h
    · exact h
    · rcases List.mem_cons.mp h with h2 | h2
      · subst h2
        exact absurd he (by decide)
      · cases h2
  have hinjSet : ∀ m' ∈ ["get", "set"],
      (fun m => m ++ "Posts") m' = (fun m => m ++ "Posts") "set" → m' = "set" := by
    intro m' hm' he
    rcases List.mem_cons.mp hm' with h | h
    · subst h
      exact absurd he (by decide)
    · rcases List.mem_cons.mp h with h2 | h2
      · exact h2
      · cases h2
  have hget := (mixinMethods_spec (fun m => m ++ "Posts") none ["get", "set"]
    [("setPosts", ⟨true, .user 7⟩)] "get" ⟨true, .user 7⟩ (by decide) hinjGet).2 (by decide)
  have hset := (mixinMethods_spec (fun m => m ++ "Posts") none ["get", "set"]
    [("setPosts", ⟨true, .user 7⟩)] "set" ⟨true, .user 7⟩ (by decide) hinjSet).1 (by decide)
  exact ⟨hget.1, hset⟩

/-! ## C6 / C7 — naming and foreign-key normalization -/

theorem getKey_removeUndefined_obj (fs : ObjFields) (k : String) (v : Value)
    (hv : v ≠ .undefined) (h : fs.lookup k = some v) :
    getKey (removeUndefined (.obj fs)) k = v := by
  simp [removeUndefined, getKey, ObjFields.lookup_stripUndefined_of_ne_undef fs k v hv h]

theorem ObjFields.keys_setField (fs : ObjFields) (k : String) (v : Value) :
    (fs.setField k v).keys = if fs.hasField k then fs.keys else fs.keys ++ [k] := by
  induction fs using ObjFields.inductionOn with
  | hnil => simp [ObjFields.setField, ObjFields.hasField, ObjFields.keys]
  | hcons k' w tl ih =>
    by_cases hk : k' = k
    · simp [ObjFields.setField, ObjFields.hasField, ObjFields.keys, hk]
    · by_cases htl : tl.hasField k = true
      · simp [ObjFields.setField, ObjFields.hasField, ObjFields.keys, hk, htl, ih]
      · rw [Bool.not_eq_true] at htl
        simp [ObjFields.setField, ObjFields.hasField, ObjFields.keys, hk, htl, ih]

theorem ObjFields.keys_nodup_setField (fs : ObjFields) (k : String) (v : Value)
    (h : fs.keys.Nodup) : (fs.setField k v).keys.Nodup := by
  rw [ObjFields.keys_setField]
  by_cases hf : fs.hasField k = true
  · simp [hf, h]
  · rw [Bool.not_eq_true] at hf
    simp only [hf, Bool.false_eq_true, if_false]
    rw [List.nodup_append]
    refine ⟨h, List.nodup_singleton k, ?_⟩
    intro x hx hk1
    have hxk : x = k := by simpa using hk1
    subst hxk
    rw [ObjFields.hasField_eq_keys_contains] at hf
    exact absurd (by simpa using hx) (by simpa using hf)

/-- C6 (amended): when `as` is a string `s`, normalization uses `s` itself
as the registry key; a multi-valued kind keeps `s` itself as
`name.plural` (it does not pluralize it) and derives `name.singular` as
`singularize s`, while a single-valued kind keeps `s` as `name.singular`
and derives `name.plural` as `pluralize s`. -/
theorem normalizeBaseAssociationOptions_string_alias
    (pluralize singularize : String → String) (isMultiAssociation : Bool)
    (options : Value) (target : ModelRef) (s : String)
    (hs : s ≠ "")
    (has : getKey options "as" = .str s)
    (h1 : hasKey options "onDelete" = false)
    (h2 : hasKey options "onUpdate" = false)
    (h3 : hasKey options "constraints" = false)
    (h4 : hasKey options "foreignKeyConstraint" = false) :
    ∃ v, normalizeBaseAssociationOptions pluralize singularize isMultiAssociation options target
        = .ok v
      ∧ getKey v "as" = .str s
      ∧ getKey (getKey v "name") "plural"
          = .str (if isMultiAssociation then s else pluralize s)
      ∧ getKey (getKey v "name") "singular"
          = .str (if isMultiAssociation then singularize s else s) := by
  unfold normalizeBaseAssociationOptions
  simp only [h1, h2, h3, h4, Bool.or_self, Bool.false_eq_true, if_false, has, truthy,
    ne_eq, hs, not_false_eq_true, decide_True, if_true]
  refine ⟨_, rfl, ?_, ?_, ?_⟩
  · refine getKey_removeUndefined_obj _ _ _ (by simp) ?_
    rw [ObjFields.lookup_setField_ne _ _ _ _ (by decide)]
    exact ObjFields.lookup_setField_self _ _ _
  · have hn := getKey_removeUndefined_obj
      (((((spreadFields options).setField "foreignKey"
            (normalizeForeignKeyOptions (getKey options "foreignKey"))).setField
          "hooks" (coalesce (getKey options "hooks") (.bool false))).setField
        "as" (.str s)).setField "name"
          (.obj (.cons "plural" (.str (if isMultiAssociation then s else pluralize s))
            (.cons "singular" (.str (if isMultiAssociation then singularize s else s)) .nil))))
      "name" _ (by simp) (ObjFields.lookup_setField_self _ _ _)
    rw [hn]
    simp [getKey, ObjFields.lookup]
  · have hn := getKey_removeUndefined_obj
      (((((spreadFields options).setField "foreignKey"
            (normalizeForeignKeyOptions (getKey options "foreignKey"))).setField
          "hooks" (coalesce (getKey options "hooks") (.bool false))).setField
        "as" (.str s)).setField "name"
          (.obj (.cons "plural" (.str (if isMultiAssociation then s else pluralize s))
            (.cons "singular" (.str (if isMultiAssociation then singularize s else s)) .nil))))
      "name" _ (by simp) (ObjFields.lookup_setField_self _ _ _)
    rw [hn]
    simp [getKey, ObjFields.lookup]

/-- C6 counterexample: a multi-valued declaration with `as: "tag"` keeps
`"tag"` itself as `name.plural`, although the pluralization of the given
string is `"tags"` — the claimed `name.plural = pluralize(as)` fails. -/
theorem normalizeBase_multi_plural_counterexample :
    getKey (getKey (okValueD (normalizeBaseAssociationOptions pluralizeEn singularizeEn true
        (.obj (.cons "as" (.str "tag") .nil)) postModel)) "name") "plural" = .str "tag"
    ∧ pluralizeEn "tag" = "tags"
    ∧ Value.str "tag" ≠ .str (pluralizeEn "tag") := by decide

/-- A concrete application of C6 (amended): `as: "tags"` on a multi-valued
kind gives registry key `"tags"`, `name.plural = "tags"` and
`name.singular = singularize "tags" = "tag"`. -/
theorem normalizeBase_string_alias_witness :
    ∃ v, normalizeBaseAssociationOptions pluralizeEn singularizeEn true
        (.obj (.cons "as" (.str "tags") .nil)) postModel = .ok v
      ∧ getKey v "as" = .str "tags"
      ∧ getKey (getKey v "name") "plural" = .str "tags"
      ∧ getKey (getKey v "name") "singular" = .str "tag" := by
  obtain ⟨v, hv, ha, hp, hsg⟩ := normalizeBaseAssociationOptions_string_alias
    pluralizeEn singularizeEn true (.obj (.cons "as" (.str "tags") .nil)) postModel "tags"
    (by decide) (by decide) (by decide) (by decide) (by decide) (by decide)
  refine ⟨v, hv, ha, ?_, ?_⟩
  · rw [hp]
    decide
  · rw [hsg]
    decide

/-- C7 (amended): a bare string foreign key normalizes to `{name: <string>}`
(so `name` is present for every string input); normalizing the string and
normalizing `{name: <string>}` agree; for object inputs `fieldName` is
merged into `name` (used as `name` when `name` is absent) and the
`fieldName` key itself is dropped.  The `name` key, however, is present
only when the input supplies a `name` or `fieldName`: an absent foreign
key normalizes to an object with no `name` key (see the counterexample for
the claim's unconditional version). -/
theorem normalizeForeignKeyOptions_spec (s f : String) (fields : ObjFields)
    (hwf : fields.keys.Nodup)
    (hname : getKey (.obj fields) "name" = .undefined)
    (hfield : getKey (.obj fields) "fieldName" = .str f) :
    normalizeForeignKeyOptions (.str s) = .obj (.cons "name" (.str s) .nil)
    ∧ hasKey (normalizeForeignKeyOptions (.str s)) "name" = true
    ∧ normalizeForeignKeyOptions (.obj (.cons "name" (.str s) .nil))
        = normalizeForeignKeyOptions (.str s)
    ∧ getKey (normalizeForeignKeyOptions (.obj fields)) "name" = .str f
    ∧ hasKey (normalizeForeignKeyOptions (.obj fields)) "fieldName" = false := by
  refine ⟨rfl, rfl, rfl, ?_, ?_⟩
  · show getKey (removeUndefined (.obj
      ((fields.setField "name"
        (coalesce (getKey (.obj fields) "name") (getKey (.obj fields) "fieldName"))).setField
          "fieldName" .undefined))) "name" = .str f
    rw [hname, hfield]
    refine getKey_removeUndefined_obj _ _ _ (by simp) ?_
    rw [ObjFields.lookup_setField_ne _ _ _ _ (by decide)]
    exact ObjFields.lookup_setField_self _ _ _
  · show hasKey (removeUndefined (.obj
      ((fields.setField "name"
        (coalesce (getKey (.obj fields) "name") (getKey (.obj fields) "fieldName"))).setField
          "fieldName" .undefined))) "fieldName" = false
    unfold hasKey removeUndefined
    refine ObjFields.hasField_stripUndefined_false _ _ (Or.inl ?_) ?_
    · exact ObjFields.lookup_setField_self _ _ _
    · exact ObjFields.keys_nodup_setField _ _ _ (ObjFields.keys_nodup_setField _ _ _ hwf)

/-- C7 counterexample: an absent foreign key (`undefined`, the common case
when the caller specifies no `foreignKey` option) normalizes to `{}`,
which has no `name` key — the claimed "name is always present after
normalization" fails; the full declaration pipeline produces exactly that
empty descriptor. -/
theorem normalizeForeignKeyOptions_counterexample :
    normalizeForeignKeyOptions .undefined = .obj .nil
    ∧ hasKey (normalizeForeignKeyOptions .undefined) "name" = false
    ∧ getKey (okValueD (normalizeHasManyPost postsOptions)) "foreignKey" = .obj .nil := by
  decide

/-- A concrete application of C7 (amended) at `"ownerId"`, the spec's own
example: the bare string and the `{name: "ownerId"}` object normalize to
the same descriptor, and `fieldName` merges into `name` and is dropped. -/
theorem normalizeForeignKeyOptions_spec_witness :
    normalizeForeignKeyOptions (.str "ownerId") = .obj (.cons "name" (.str "ownerId") .nil)
    ∧ normalizeForeignKeyOptions (.obj (.cons "name" (.str "ownerId") .nil))
        = normalizeForeignKeyOptions (.str "ownerId")
    ∧ getKey (normalizeForeignKeyOptions (.obj (.cons "fieldName" (.str "ownerId") .nil)))
        "name" = .str "ownerId"
    ∧ hasKey (normalizeForeignKeyOptions (.obj (.cons "fieldName" (.str "ownerId") .nil)))
        "fieldName" = false := by
  have h := normalizeForeignKeyOptions_spec "ownerId" "ownerId"
    (.cons "fieldName" (.str "ownerId") .nil) (by decide) (by decide) (by decide)
  exact ⟨h.1, h.2.2.1, h.2.2.2.1, h.2.2.2.2⟩

/-! ## Evaluation lemmas for `defineAssociation` -/

theorem checkNamingCollision_ok (sourceName : String) (attributes : List String)
    (associationName : String) (h : associationName ∉ attributes) :
    checkNamingCollision sourceName attributes associationName = .ok () := by
  unfold checkNamingCollision
  simp [h]

theorem checkNamingCollision_error (sourceName : String) (attributes : List String)
    (associationName : String) (h : associationName ∈ attributes) :
    checkNamingCollision sourceName attributes associationName
      = .error (.namingCollision sourceName associationName) := by
  unfold checkNamingCollision
  simp [h]

theorem assertAssociationUnique_free (typeName : String) (target : ModelRef)
    (options : Value) (parent : Option AssocRecord) (st : SourceState)
    (h : lookupAssoc st (getKey options "as").toKeyString = none) :
    assertAssociationUnique typeName target options parent st = .ok () := by
  unfold assertAssociationUnique
  simp [h]

theorem defineAssociation_reuse_eval
    (typeName : String) (source target : ModelRef) (options nv : Value)
    (parent : Option AssocRecord)
    (normalizeOptions : Value → Except DeclError Value)
    (construct : Value → SourceState → SourceState × Except DeclError AssocRecord)
    (beforeAssociate afterAssociate : SourceState → SourceState)
    (st st1 st3 : SourceState) (aName : String) (existing : AssocRecord)
    (hTm : target.isModel = true) (hSi : source.isInitialized = true)
    (hTi : target.isInitialized = true)
    (hN : normalizeOptions options = .ok nv)
    (ha : (getKey nv "as").toKeyString = aName)
    (hColl : aName ∉ st.attributes)
    (hUniq : assertAssociationUnique typeName target nv parent st = .ok ())
    (hst1 : st1 = (if truthy (getKey nv "hooks") then beforeAssociate st else st))
    (hocc : lookupAssoc st1 aName = some existing)
    (hst3 : st3 = (if truthy (getKey nv "hooks") then afterAssociate st1 else st1)) :
    defineAssociation typeName source target options parent normalizeOptions construct
        beforeAssociate afterAssociate st
      = (match checkNamingCollision source.name st3.attributes aName with
         | .error e => DeclResult.mk st3 (.error e) 2
         | .ok _ => DeclResult.mk st3 (.ok existing) 2) := by
  unfold defineAssociation
  simp [hTm, hSi, hTi, hN, ha, checkNamingCollision_ok _ _ _ hColl, hUniq,
    ← hst1, hocc, ← hst3]

theorem defineAssociation_construct_eval
    (typeName : String) (source target : ModelRef) (options nv : Value)
    (parent : Option AssocRecord)
    (normalizeOptions : Value → Except DeclError Value)
    (construct : Value → SourceState → SourceState × Except DeclError AssocRecord)
    (beforeAssociate afterAssociate : SourceState → SourceState)
    (st st1 st2 st3 : SourceState) (aName : String) (association : AssocRecord)
    (hTm : target.isModel = true) (hSi : source.isInitialized = true)
    (hTi : target.isInitialized = true)
    (hN : normalizeOptions options = .ok nv)
    (ha : (getKey nv "as").toKeyString = aName)
    (hColl : aName ∉ st.attributes)
    (hUniq : assertAssociationUnique typeName target nv parent st = .ok ())
    (hst1 : st1 = (if truthy (getKey nv "hooks") then beforeAssociate st else st))
    (hfree : lookupAssoc st1 aName = none)
    (hcon : construct nv st1 = (st2, .ok association))
    (hst3 : st3 = (if truthy (getKey nv "hooks") then afterAssociate st2 else st2)) :
    defineAssociation typeName source target options parent normalizeOptions construct
        beforeAssociate afterAssociate st
      = (match checkNamingCollision source.name st3.attributes aName with
         | .error e => DeclResult.mk st3 (.error e) 2
         | .ok _ => DeclResult.mk st3 (.ok association) 2) := by
  unfold defineAssociation
  simp [hTm, hSi, hTi, hN, ha, checkNamingCollision_ok _ _ _ hColl, hUniq,
    ← hst1, hfree, hcon, ← hst3]

theorem defineAssociation_constructFail_eval
    (typeName : String) (source target : ModelRef) (options nv : Value)
    (parent : Option AssocRecord)
    (normalizeOptions : Value → Except DeclError Value)
    (construct : Value → SourceState → SourceState × Except DeclError AssocRecord)
    (beforeAssociate afterAssociate : SourceState → SourceState)
    (st st1 st2 : SourceState) (aName : String) (ec : DeclError)
    (hTm : target.isModel = true) (hSi : source.isInitialized = true)
    (hTi : target.isInitialized = true)
    (hN : normalizeOptions options = .ok nv)
    (ha : (getKey nv "as").toKeyString = aName)
    (hColl : aName ∉ st.attributes)
    (hUniq : assertAssociationUnique typeName target nv parent st = .ok ())
    (hst1 : st1 = (if truthy (getKey nv "hooks") then beforeAssociate st else st))
    (hfree : lookupAssoc st1 aName = none)
    (hcon : construct nv st1 = (st2, .error ec)) :
    defineAssociation typeName source target options parent normalizeOptions construct
        beforeAssociate afterAssociate st
      = ⟨st2, .error (.constructionFailed parent.isSome), 1⟩ := by
  unfold defineAssociation
  simp [hTm, hSi, hTi, hN, ha, checkNamingCollision_ok _ _ _ hColl, hUniq,
    ← hst1, hfree, hcon]

theorem defineAssociation_collision_error
    (typeName : String) (source target : ModelRef) (options nv : Value)
    (parent : Option AssocRecord)
    (normalizeOptions : Value → Except DeclError Value)
    (construct : Value → SourceState → SourceState × Except DeclError AssocRecord)
    (beforeAssociate afterAssociate : SourceState → SourceState)
    (st : SourceState) (aName : String)
    (hTm : target.isModel = true) (hSi : source.isInitialized = true)
    (hTi : target.isInitialized = true)
    (hN : normalizeOptions options = .ok nv)
    (ha : (getKey nv "as").toKeyString = aName)
    (hattr : aName ∈ st.attributes) :
    defineAssociation typeName source target options parent normalizeOptions construct
        beforeAssociate afterAssociate st
      = ⟨st, .error (.namingCollision source.name aName), 1⟩ := by
  unfold defineAssociation
  simp [hTm, hSi, hTi, hN, ha, checkNamingCollision_error _ _ _ hattr]

theorem defineAssociation_unique_error
    (typeName : String) (source target : ModelRef) (options nv : Value)
    (parent : Option AssocRecord)
    (normalizeOptions : Value → Except DeclError Value)
    (construct : Value → SourceState → SourceState × Except DeclError AssocRecord)
    (beforeAssociate afterAssociate : SourceState → SourceState)
    (st : SourceState) (aName : String) (e : DeclError)
    (hTm : target.isModel = true) (hSi : source.isInitialized = true)
    (hTi : target.isInitialized = true)
    (hN : normalizeOptions options = .ok nv)
    (ha : (getKey nv "as").toKeyString = aName)
    (hattr : aName ∉ st.attributes)
    (hU : assertAssociationUnique typeName target nv parent st = .error e) :
    defineAssociation typeName source target options parent normalizeOptions construct
        beforeAssociate afterAssociate st
      = ⟨st, .error e, 1⟩ := by
  unfold defineAssociation
  simp [hTm, hSi, hTi, hN, ha, checkNamingCollision_ok _ _ _ hattr, hU]

/-! ## C5 — collision precedence and double check -/

/-- C5: a declaration whose resolved alias equals a declared plain
attribute of the source fails with the naming-collision error regardless
of the association type; the collision check runs exactly twice on every
declaration that completes (a declaration that throws earlier aborts
before reaching the second check); and an attribute added to the source
model by the before-hook under the alias name makes the declaration fail
at the post-construction check. -/
theorem defineAssociation_collision_policy
    (typeName : String) (source target : ModelRef) (options nv : Value)
    (parent : Option AssocRecord)
    (normalizeOptions : Value → Except DeclError Value)
    (construct : Value → SourceState → SourceState × Except DeclError AssocRecord)
    (beforeAssociate afterAssociate : SourceState → SourceState)
    (st : SourceState) (aName : String) (freshId : Nat) :
    (target.isModel = true → source.isInitialized = true → target.isInitialized = true →
      normalizeOptions options = .ok nv → (getKey nv "as").toKeyString = aName →
      aName ∈ st.attributes →
      defineAssociation typeName source target options parent normalizeOptions construct
          beforeAssociate afterAssociate st
        = ⟨st, .error (.namingCollision source.name aName), 1⟩)
    ∧ ((defineAssociation typeName source target options parent normalizeOptions construct
          beforeAssociate afterAssociate st).collisionChecksRun = 2
        ∨ ∃ e, (defineAssociation typeName source target options parent normalizeOptions
            construct beforeAssociate afterAssociate st).result = .error e)
    ∧ (target.isModel = true → source.isInitialized = true → target.isInitialized = true →
        normalizeOptions options = .ok nv → (getKey nv "as").toKeyString = aName →
        aName ∉ st.attributes → lookupAssoc st aName = none →
        truthy (getKey nv "hooks") = true →
        lookupAssoc (beforeAssociate st) aName = none →
        aName ∈ (beforeAssociate st).attributes →
        (defineAssociation typeName source target options parent normalizeOptions
            (constructAndRegister typeName target parent freshId) beforeAssociate id st).result
          = .error (.namingCollision source.name aName)) := by
  refine ⟨?_, ?_, ?_⟩
  · intro hTm hSi hTi hN ha hattr
    exact defineAssociation_collision_error typeName source target options nv parent
      normalizeOptions construct beforeAssociate afterAssociate st aName
      hTm hSi hTi hN ha hattr
  · unfold defineAssociation
    dsimp only
    repeat' split
    all_goals first
      | exact Or.inl rfl
      | exact Or.inr ⟨_, rfl⟩
  · intro hTm hSi hTi hN ha hattr hfreeSt hHooks hfree1 hattr1
    have heval := defineAssociation_construct_eval typeName source target options nv parent
      normalizeOptions (constructAndRegister typeName target parent freshId)
      beforeAssociate id st (beforeAssociate st)
      (registerAssoc (beforeAssociate st) aName
        ⟨freshId, typeName, aName, target, nv, parent.isSome, parent.isNone⟩)
      (registerAssoc (beforeAssociate st) aName
        ⟨freshId, typeName, aName, target, nv, parent.isSome, parent.isNone⟩)
      aName ⟨freshId, typeName, aName, target, nv, parent.isSome, parent.isNone⟩
      hTm hSi hTi hN ha hattr
      (assertAssociationUnique_free typeName target nv parent st (by rw [ha]; exact hfreeSt))
      (by simp [hHooks]) hfree1
      (by unfold constructAndRegister; rw [ha])
      (by simp [hHooks])
    rw [heval]
    rw [checkNamingCollision_error source.name _ aName
      (by rw [registerAssoc_attributes]; exact hattr1)]

/-- A concrete application of C5: `User.hasMany(Post, {as: "posts"})` fails
with the naming-collision error when `User` already declares a plain
attribute `posts`, and also when a before-hook adds such an attribute
during a hook-enabled declaration. -/
theorem defineAssociation_collision_policy_witness :
    defineAssociation "HasMany" userModel postModel postsOptions none normalizeHasManyPost
        (constructAndRegister "HasMany" postModel none 1) id id ⟨["posts", "id"], []⟩
      = ⟨⟨["posts", "id"], []⟩, .error (.namingCollision "User" "posts"), 1⟩
    ∧ (defineAssociation "HasMany" userModel postModel postsHookedOptions none
        normalizeHasManyPost (constructAndRegister "HasMany" postModel none 1)
        (fun s => ⟨"posts" :: s.attributes, s.associations⟩) id userState0).result
      = .error (.namingCollision "User" "posts") := by
  constructor
  · exact (defineAssociation_collision_policy "HasMany" userModel postModel postsOptions
      (okValueD (normalizeHasManyPost postsOptions)) none normalizeHasManyPost
      (constructAndRegister "HasMany" postModel none 1) id id
      ⟨["posts", "id"], []⟩ "posts" 1).1
      (by decide) (by decide) (by decide) (by decide) (by decide) (by decide)
  · exact (defineAssociation_collision_policy "HasMany" userModel postModel
      postsHookedOptions (okValueD (normalizeHasManyPost postsHookedOptions)) none
      normalizeHasManyPost (constructAndRegister "HasMany" postModel none 1)
      (fun s => ⟨"posts" :: s.attributes, s.associations⟩) id userState0 "posts" 1).2.2
      (by decide) (by decide) (by decide) (by decide) (by decide) (by decide) (by decide)
      (by decide) (by decide) (by decide)

/-! ## C10 — construction is skipped when the alias is occupied -/

/-- C10: when a `defineAssociation` call passes the uniqueness and
collision checks but the source's registry has an entry under the
resolved alias at the moment of construction (after the `beforeAssociate`
hook has run), the supplied builder is never invoked — the call's outcome
is the same for any two builders — and, provided the final collision
check passes, the call returns that existing association. -/
theorem defineAssociation_construct_skipped
    (typeName : String) (source target : ModelRef) (options nv : Value)
    (parent : Option AssocRecord)
    (normalizeOptions : Value → Except DeclError Value)
    (construct construct' : Value → SourceState → SourceState × Except DeclError AssocRecord)
    (beforeAssociate afterAssociate : SourceState → SourceState)
    (st st1 st3 : SourceState) (aName : String) (existing : AssocRecord)
    (hTm : target.isModel = true) (hSi : source.isInitialized = true)
    (hTi : target.isInitialized = true)
    (hN : normalizeOptions options = .ok nv)
    (ha : (getKey nv "as").toKeyString = aName)
    (hattr : aName ∉ st.attributes)
    (hUniq : assertAssociationUnique typeName target nv parent st = .ok ())
    (hst1 : st1 = (if truthy (getKey nv "hooks") then beforeAssociate st else st))
    (hocc : lookupAssoc st1 aName = some existing)
    (hst3 : st3 = (if truthy (getKey nv "hooks") then afterAssociate st1 else st1)) :
    defineAssociation typeName source target options parent normalizeOptions construct
        beforeAssociate afterAssociate st
      = defineAssociation typeName source target options parent normalizeOptions construct'
          beforeAssociate afterAssociate st
    ∧ (aName ∉ st3.attributes →
        defineAssociation typeName source target options parent normalizeOptions construct
            beforeAssociate afterAssociate st
          = ⟨st3, .ok existing, 2⟩) := by
  have h1 := defineAssociation_reuse_eval typeName source target options nv parent
    normalizeOptions construct beforeAssociate afterAssociate st st1 st3 aName existing
    hTm hSi hTi hN ha hattr hUniq hst1 hocc hst3
  have h2 := defineAssociation_reuse_eval typeName source target options nv parent
    normalizeOptions construct' beforeAssociate afterAssociate st st1 st3 aName existing
    hTm hSi hTi hN ha hattr hUniq hst1 hocc hst3
  constructor
  · rw [h1, h2]
  · intro hattr3
    rw [h1, checkNamingCollision_ok _ _ _ hattr3]

/-- A concrete application of C10: the before-hook registers `posts`
itself; the declaration then returns that hook-registered association and
its outcome does not depend on the supplied builder at all (a builder that
would throw is never consulted). -/
theorem defineAssociation_construct_skipped_witness :
    (defineAssociation "HasMany" userModel postModel postsHookedOptions none
        normalizeHasManyPost (constructAndRegister "HasMany" postModel none 42)
        (fun s => registerAssoc s "posts" postsAssocRecord) id userState0)
      = (defineAssociation "HasMany" userModel postModel postsHookedOptions none
          normalizeHasManyPost (fun _ s => (s, .error .assertionFailed))
          (fun s => registerAssoc s "posts" postsAssocRecord) id userState0)
    ∧ (defineAssociation "HasMany" userModel postModel postsHookedOptions none
        normalizeHasManyPost (constructAndRegister "HasMany" postModel none 42)
        (fun s => registerAssoc s "posts" postsAssocRecord) id userState0).result
      = .ok postsAssocRecord := by
  have h := defineAssociation_construct_skipped "HasMany" userModel postModel
    postsHookedOptions (okValueD (normalizeHasManyPost postsHookedOptions)) none
    normalizeHasManyPost (constructAndRegister "HasMany" postModel none 42)
    (fun _ s => (s, .error .assertionFailed))
    (fun s => registerAssoc s "posts" postsAssocRecord) id userState0
    (registerAssoc userState0 "posts" postsAssocRecord)
    (registerAssoc userState0 "posts" postsAssocRecord)
    "posts" postsAssocRecord
    (by decide) (by decide) (by decide) (by decide) (by decide) (by decide)
    (by decide) (by decide) (by decide) (by decide)
  refine ⟨h.1, ?_⟩
  rw [h.2 (by decide)]

/-! ## C1 — idempotent reuse -/

/-- A composite parent association used by the concrete composite
scenarios (a `BelongsToMany` whose legs are declared with `parent`). -/
def parentRec : AssocRecord :=
  { id := 77, associationType := "BelongsToMany", asName := "tags", target := postModel
    options := .obj .nil, hasParentAssociation := false, rootIsSelf := true }

/-- C1 counterexample: declaring `User.hasMany(Post, {as: "posts"})` twice
with literally identical arguments does not return the same association
twice — the first call succeeds, the second call throws the same-name
`AssociationError` (leaving the registry unchanged). -/
theorem defineAssociation_plain_redeclare_counterexample :
    (declarePosts 1 userState0).result = .ok postsAssocRecord
    ∧ declarePosts 1 (declarePosts 1 userState0).state
        = ⟨(declarePosts 1 userState0).state, .error (.associationError .sameName), 1⟩ := by
  decide

/-- C1 (amended): when the declaration is part of a composite (a `parent`
association is supplied), a second `defineAssociation` call with identical
arguments returns the very same association instance that the first call
constructed and leaves the source state (in particular the registry and
its size) unchanged; without a parent, a second identical plain
declaration instead fails with an `AssociationError` (see the
counterexample). -/
theorem defineAssociation_composite_redeclare_reuses
    (typeName : String) (source target : ModelRef) (options nv : Value)
    (p : AssocRecord) (normalizeOptions : Value → Except DeclError Value)
    (beforeAssociate afterAssociate : SourceState → SourceState)
    (st : SourceState) (aName : String) (id1 id2 : Nat)
    (hTm : target.isModel = true) (hSi : source.isInitialized = true)
    (hTi : target.isInitialized = true)
    (hN : normalizeOptions options = .ok nv)
    (ha : (getKey nv "as").toKeyString = aName)
    (hNoHooks : truthy (getKey nv "hooks") = false)
    (hattr : aName ∉ st.attributes)
    (hfree : lookupAssoc st aName = none) :
    ∃ a, (defineAssociation typeName source target options (some p) normalizeOptions
            (constructAndRegister typeName target (some p) id1)
            beforeAssociate afterAssociate st).result = .ok a
      ∧ defineAssociation typeName source target options (some p) normalizeOptions
            (constructAndRegister typeName target (some p) id2) beforeAssociate afterAssociate
            (defineAssociation typeName source target options (some p) normalizeOptions
              (constructAndRegister typeName target (some p) id1)
              beforeAssociate afterAssociate st).state
          = ⟨(defineAssociation typeName source target options (some p) normalizeOptions
                (constructAndRegister typeName target (some p) id1)
                beforeAssociate afterAssociate st).state, .ok a, 2⟩ := by
  have hU1 : assertAssociationUnique typeName target nv (some p) st = .ok () :=
    assertAssociationUnique_free typeName target nv (some p) st (by rw [ha]; exact hfree)
  have hD1 := defineAssociation_construct_eval typeName source target options nv (some p)
    normalizeOptions (constructAndRegister typeName target (some p) id1)
    beforeAssociate afterAssociate st st
    (registerAssoc st aName ⟨id1, typeName, aName, target, nv, true, false⟩)
    (registerAssoc st aName ⟨id1, typeName, aName, target, nv, true, false⟩)
    aName ⟨id1, typeName, aName, target, nv, true, false⟩
    hTm hSi hTi hN ha hattr hU1 (by simp [hNoHooks]) hfree
    (by unfold constructAndRegister; rw [ha]; rfl) (by simp [hNoHooks])
  have hattrReg : aName ∉ (registerAssoc st aName
      (⟨id1, typeName, aName, target, nv, true, false⟩ : AssocRecord)).attributes := by
    rw [registerAssoc_attributes]
    exact hattr
  simp only [checkNamingCollision_ok source.name _ aName hattrReg] at hD1
  have hstat : getAssociationsIncompatibilityStatus
      ⟨id1, typeName, aName, target, nv, true, false⟩ typeName target nv = none := by
    unfold getAssociationsIncompatibilityStatus
    simp [isSameInitialModel, hTm, isEqual_refl]
  have hU2 : assertAssociationUnique typeName target nv (some p)
      (registerAssoc st aName ⟨id1, typeName, aName, target, nv, true, false⟩) = .ok () := by
    unfold assertAssociationUnique
    simp [ha, lookupAssoc_registerAssoc_self, hstat]
  have hD2 := defineAssociation_reuse_eval typeName source target options nv (some p)
    normalizeOptions (constructAndRegister typeName target (some p) id2)
    beforeAssociate afterAssociate
    (registerAssoc st aName ⟨id1, typeName, aName, target, nv, true, false⟩)
    (registerAssoc st aName ⟨id1, typeName, aName, target, nv, true, false⟩)
    (registerAssoc st aName ⟨id1, typeName, aName, target, nv, true, false⟩)
    aName ⟨id1, typeName, aName, target, nv, true, false⟩
    hTm hSi hTi hN ha hattrReg hU2
    (by simp [hNoHooks]) (lookupAssoc_registerAssoc_self _ _ _) (by simp [hNoHooks])
  simp only [checkNamingCollision_ok source.name _ aName hattrReg] at hD2
  refine ⟨⟨id1, typeName, aName, target, nv, true, false⟩, ?_, ?_⟩
  · rw [hD1]
  · rw [hD1]
    exact hD2

/-- A concrete application of C1 (amended): redeclaring the composite leg
`posts` (with the same parent) returns the association built by the first
call and leaves the state untouched. -/
theorem defineAssociation_composite_redeclare_reuses_witness :
    ∃ a, (defineAssociation "HasMany" userModel postModel postsOptions (some parentRec)
            normalizeHasManyPost (constructAndRegister "HasMany" postModel (some parentRec) 1)
            id id userState0).result = .ok a
      ∧ defineAssociation "HasMany" userModel postModel postsOptions (some parentRec)
            normalizeHasManyPost (constructAndRegister "HasMany" postModel (some parentRec) 2)
            id id (defineAssociation "HasMany" userModel postModel postsOptions (some parentRec)
              normalizeHasManyPost (constructAndRegister "HasMany" postModel (some parentRec) 1)
              id id userState0).state
          = ⟨(defineAssociation "HasMany" userModel postModel postsOptions (some parentRec)
                normalizeHasManyPost (constructAndRegister "HasMany" postModel (some parentRec) 1)
                id id userState0).state, .ok a, 2⟩ :=
  defineAssociation_composite_redeclare_reuses "HasMany" userModel postModel postsOptions
    (okValueD (normalizeHasManyPost postsOptions)) parentRec normalizeHasManyPost id id
    userState0 "posts" 1 2 (by decide) (by decide) (by decide) (by decide) (by decide)
    (by decide) (by decide) (by decide)

/-! ## C2 — reuse-tolerance policy -/

/-- An existing composite-leg association under `posts` whose options
differ from a fresh declaration's normalized options. -/
def childAssocRecord : AssocRecord :=
  { id := 3, associationType := "HasMany", asName := "posts", target := postModel
    options := .obj (.cons "scope" (.str "x") .nil)
    hasParentAssociation := true, rootIsSelf := false }

/-- A `User` state in which `posts` is occupied by `childAssocRecord`. -/
def childState : SourceState := ⟨["id"], [("posts", childAssocRecord)]⟩

/-- An existing composite-leg association under `posts` whose options equal
a fresh declaration's normalized options. -/
def reusableChildRecord : AssocRecord :=
  { id := 3, associationType := "HasMany", asName := "posts", target := postModel
    options := postsNormalizedOptions
    hasParentAssociation := true, rootIsSelf := false }

/-- A `User` state in which `posts` is occupied by `reusableChildRecord`. -/
def reusableChildState : SourceState := ⟨["id"], [("posts", reusableChildRecord)]⟩

/-- C2 counterexample: a classification of `None` is not always reusable —
redeclaring the identical plain `posts` association classifies as `None`
yet the call fails with an `AssociationError`; and a non-`None`
classification is never tolerated — even with a parent supplied and the
existing association a composite descendant, differing options are a hard
error rather than being reused. -/
theorem assertAssociationUnique_policy_counterexample :
    (getAssociationsIncompatibilityStatus postsAssocRecord "HasMany" postModel
        postsNormalizedOptions = none
      ∧ declarePosts 1 (declarePosts 1 userState0).state
          = ⟨(declarePosts 1 userState0).state, .error (.associationError .sameName), 1⟩)
    ∧ (getAssociationsIncompatibilityStatus childAssocRecord "HasMany" postModel
          postsNormalizedOptions = some .DIFFERENT_OPTIONS
      ∧ assertAssociationUnique "HasMany" postModel postsNormalizedOptions (some parentRec)
          childState = .error (.associationError (.incompatible (some .DIFFERENT_OPTIONS)))) := by
  decide

/-- C2 (amended): when a declaration finds an existing association under
the resolved alias, it is reused exactly when a parent association is
supplied *or* the existing association has its `parentAssociation` set,
*and* the classification is `None`; in every other case — including a
non-`None` classification inside a composite chain — the call fails with
an `AssociationError`, and the failing call constructs nothing and leaves
the source state unchanged. -/
theorem assertAssociationUnique_policy
    (typeName : String) (source target : ModelRef) (options nv : Value)
    (parent : Option AssocRecord)
    (normalizeOptions : Value → Except DeclError Value)
    (construct : Value → SourceState → SourceState × Except DeclError AssocRecord)
    (beforeAssociate afterAssociate : SourceState → SourceState)
    (st : SourceState) (aName : String) (existing : AssocRecord) (e : DeclError)
    (ha : (getKey nv "as").toKeyString = aName)
    (hex : lookupAssoc st aName = some existing) :
    (assertAssociationUnique typeName target nv parent st = .ok ()
      ↔ ((parent.isSome || existing.hasParentAssociation) = true
          ∧ getAssociationsIncompatibilityStatus existing typeName target nv = none))
    ∧ (assertAssociationUnique typeName target nv parent st = .error e →
        ∃ c, e = .associationError c)
    ∧ (target.isModel = true → source.isInitialized = true → target.isInitialized = true →
        normalizeOptions options = .ok nv → aName ∉ st.attributes →
        assertAssociationUnique typeName target nv parent st = .error e →
        defineAssociation typeName source target options parent normalizeOptions construct
            beforeAssociate afterAssociate st
          = ⟨st, .error e, 1⟩) := by
  have hassert : assertAssociationUnique typeName target nv parent st
      = (if ((parent.isSome || existing.hasParentAssociation)
            && decide (getAssociationsIncompatibilityStatus existing typeName target nv = none))
            = true then
          .ok ()
        else if (parent.isNone && existing.rootIsSelf) = true then
          .error (.associationError .sameName)
        else
          .error (.associationError
            (.incompatible (getAssociationsIncompatibilityStatus existing typeName target nv)))) := by
    unfold assertAssociationUnique
    simp only [ha, hex]
  refine ⟨?_, ?_, ?_⟩
  · rw [hassert]
    by_cases hb : ((parent.isSome || existing.hasParentAssociation)
        && decide (getAssociationsIncompatibilityStatus existing typeName target nv = none))
        = true
    · simp only [hb, if_true, true_iff]
      simp only [Bool.and_eq_true, decide_eq_true_eq] at hb
      simp [hb]
    · rw [Bool.not_eq_true] at hb
      simp only [hb, Bool.false_eq_true, if_false]
      constructor
      · intro h
        split at h <;> simp at h
      · intro hc
        simp [hc.1, hc.2] at hb
  · rw [hassert]
    intro h
    split at h
    · simp at h
    · split at h
      · refine ⟨.sameName, ?_⟩
        injection h with h'
        exact h'.symm
      · refine ⟨.incompatible (getAssociationsIncompatibilityStatus existing typeName target nv), ?_⟩
        injection h with h'
        exact h'.symm
  · intro hTm hSi hTi hN hattr hErr
    exact defineAssociation_unique_error typeName source target options nv parent
      normalizeOptions construct beforeAssociate afterAssociate st aName e
      hTm hSi hTi hN ha hattr hErr

/-- A concrete application of C2 (amended): an existing composite-leg
`posts` association with identical options is reused (the uniqueness
check passes) even though the new call supplies no parent, because the
existing association's `parentAssociation` is set. -/
theorem assertAssociationUnique_policy_witness :
    assertAssociationUnique "HasMany" postModel postsNormalizedOptions none
      reusableChildState = .ok () :=
  (assertAssociationUnique_policy "HasMany" userModel postModel postsOptions
    postsNormalizedOptions none normalizeHasManyPost
    (constructAndRegister "HasMany" postModel none 1) id id
    reusableChildState "posts" reusableChildRecord .assertionFailed
    (by decide) (by decide)).1.mpr ⟨by decide, by decide⟩

/-! ## C4 — alias exclusivity and failure atomicity -/

theorem registerAssoc_keys_nodup (st : SourceState) (a : String) (rec : AssocRecord)
    (h : (st.associations.map Prod.fst).Nodup) :
    ((registerAssoc st a rec).associations.map Prod.fst).Nodup := by
  unfold registerAssoc
  by_cases hany : st.associations.any (fun p => p.1 = a) = true
  · simp only [hany, if_true]
    have hmap : (st.associations.map (fun p => if p.1 = a then (a, rec) else p)).map Prod.fst
        = st.associations.map Prod.fst := by
      rw [List.map_map]
      apply List.map_congr_left
      intro p hp
      by_cases hpa : p.1 = a
      · simp [hpa]
      · simp [hpa]
    rw [hmap]
    exact h
  · rw [Bool.not_eq_true] at hany
    simp only [hany, Bool.false_eq_true, if_false, List.map_append]
    rw [List.nodup_append]
    refine ⟨h, by simp, ?_⟩
    intro x hx hk
    have hxa : x = a := by simpa using hk
    rcases List.mem_map.mp hx with ⟨p, hpmem, hpa⟩
    rw [List.any_eq_false] at hany
    have hpa' : ¬ (p.1 = a) := by simpa using hany p hpmem
    exact hpa' (hpa.trans hxa)

/-- With hooks disabled and the registering builder, every declaration
either leaves the source state untouched or succeeds and only adds the
constructed association under its resolved alias. -/
theorem defineAssociation_hooksOff_canonical_cases
    (typeName : String) (source target : ModelRef) (options nv : Value)
    (parent : Option AssocRecord)
    (normalizeOptions : Value → Except DeclError Value)
    (beforeAssociate afterAssociate : SourceState → SourceState)
    (st : SourceState) (freshId : Nat)
    (hH : truthy (getKey nv "hooks") = false)
    (hN : normalizeOptions options = .ok nv) :
    (defineAssociation typeName source target options parent normalizeOptions
        (constructAndRegister typeName target parent freshId)
        beforeAssociate afterAssociate st).state = st
    ∨ (∃ rec, defineAssociation typeName source target options parent normalizeOptions
          (constructAndRegister typeName target parent freshId)
          beforeAssociate afterAssociate st
        = ⟨registerAssoc st ((getKey nv "as").toKeyString) rec, .ok rec, 2⟩) := by
  by_cases hTm : target.isModel = true
  · by_cases hSi : source.isInitialized = true
    · by_cases hTi : target.isInitialized = true
      · by_cases hColl : (getKey nv "as").toKeyString ∈ st.attributes
        · left
          rw [defineAssociation_collision_error typeName source target options nv parent
            normalizeOptions (constructAndRegister typeName target parent freshId)
            beforeAssociate afterAssociate st ((getKey nv "as").toKeyString)
            hTm hSi hTi hN rfl hColl]
        · rcases hU : assertAssociationUnique typeName target nv parent st with eU | u
          · left
            rw [defineAssociation_unique_error typeName source target options nv parent
              normalizeOptions (constructAndRegister typeName target parent freshId)
              beforeAssociate afterAssociate st ((getKey nv "as").toKeyString) eU
              hTm hSi hTi hN rfl hColl hU]
          · cases u
            rcases hocc : lookupAssoc st ((getKey nv "as").toKeyString) with _ | ex
            · right
              refine ⟨⟨freshId, typeName, (getKey nv "as").toKeyString, target, nv,
                parent.isSome, parent.isNone⟩, ?_⟩
              have hD := defineAssociation_construct_eval typeName source target options nv
                parent normalizeOptions (constructAndRegister typeName target parent freshId)
                beforeAssociate afterAssociate st st
                (registerAssoc st ((getKey nv "as").toKeyString)
                  ⟨freshId, typeName, (getKey nv "as").toKeyString, target, nv,
                    parent.isSome, parent.isNone⟩)
                (registerAssoc st ((getKey nv "as").toKeyString)
                  ⟨freshId, typeName, (getKey nv "as").toKeyString, target, nv,
                    parent.isSome, parent.isNone⟩)
                ((getKey nv "as").toKeyString)
                ⟨freshId, typeName, (getKey nv "as").toKeyString, target, nv,
                  parent.isSome, parent.isNone⟩
                hTm hSi hTi hN rfl hColl hU (by simp [hH]) hocc rfl (by simp [hH])
              have hokC : checkNamingCollision source.name
                  (registerAssoc st ((getKey nv "as").toKeyString)
                    (⟨freshId, typeName, (getKey nv "as").toKeyString, target, nv,
                      parent.isSome, parent.isNone⟩ : AssocRecord)).attributes
                  ((getKey nv "as").toKeyString) = .ok () := by
                refine checkNamingCollision_ok _ _ _ ?_
                rw [registerAssoc_attributes]
                exact hColl
              rw [hD, hokC]
            · left
              have hD := defineAssociation_reuse_eval typeName source target options nv
                parent normalizeOptions (constructAndRegister typeName target parent freshId)
                beforeAssociate afterAssociate st st st
                ((getKey nv "as").toKeyString) ex
                hTm hSi hTi hN rfl hColl hU (by simp [hH]) hocc (by simp [hH])
              rw [hD, checkNamingCollision_ok source.name st.attributes
                ((getKey nv "as").toKeyString) hColl]
      · left
        unfold defineAssociation
        simp [hTm, hSi, hTi]
    · left
      unfold defineAssociation
      simp [hTm, hSi]
  · left
    unfold defineAssociation
    simp [hTm]

/-- A hook-enabled declaration whose before-hook declares a plain `posts`
attribute on `User`: the second collision check then rejects the call —
after the association has already been constructed and registered. -/
def hookedDeclare : DeclResult :=
  defineAssociation "HasMany" userModel postModel postsHookedOptions none
    normalizeHasManyPost (constructAndRegister "HasMany" postModel none 1)
    (fun s => ⟨"posts" :: s.attributes, s.associations⟩) id userState0

/-- A hook-free declaration whose builder throws after the base
constructor has registered the association. -/
def failedConstructionDeclare : DeclResult :=
  defineAssociation "HasMany" userModel postModel postsOptions none normalizeHasManyPost
    (constructRegisterThenThrow "HasMany" postModel none 1) id id userState0

/-- C4 counterexample: two failing declarations that do not leave the
registry as it was.  First, the before-hook adds a colliding attribute,
the call throws the naming-collision error, yet the freshly constructed
`posts` association stays registered.  Second — with hooks disabled — a
builder that throws after the base constructor has registered (as the
real type-specific constructors can) makes the call fail with the wrapped
construction error while the association likewise stays registered; in
both cases the registry grew from empty to one entry. -/
theorem defineAssociation_atomicity_counterexample :
    (hookedDeclare.result = .error (.namingCollision "User" "posts")
      ∧ userState0.associations = []
      ∧ hookedDeclare.state.associations.length = 1
      ∧ (lookupAssoc hookedDeclare.state "posts").isSome = true)
    ∧ (failedConstructionDeclare.result = .error (.constructionFailed false)
      ∧ failedConstructionDeclare.state.associations.length = 1
      ∧ (lookupAssoc failedConstructionDeclare.state "posts").isSome = true) := by
  decide

/-- C4 (amended): the registry keeps at most one association per alias (a
declaration with the registering builder never introduces a duplicate
registry key); every failure raised before the construction step —
invalid target, uninitialized source or target, normalization error,
attribute collision, uniqueness conflict — aborts the call with the
source state exactly as it was, whatever builder is supplied; in
particular an attempt to register a second, incompatible association
under an occupied alias fails with an `AssociationError` and changes
nothing.  Failures after construction has begun are **not** atomic: when
the builder throws, the call reports the wrapped construction failure but
keeps every mutation the builder already made — in particular an
association the base constructor had registered stays registered — and a
hook-induced collision caught by the post-construction check likewise
leaves the constructed association registered (see the counterexample). -/
theorem defineAssociation_alias_exclusivity_atomicity
    (typeName : String) (source target : ModelRef) (options nv : Value) (e0 : DeclError)
    (parent : Option AssocRecord)
    (normalizeOptions : Value → Except DeclError Value)
    (construct : Value → SourceState → SourceState × Except DeclError AssocRecord)
    (beforeAssociate afterAssociate : SourceState → SourceState)
    (st st1 st2 : SourceState) (aName : String) (existing : AssocRecord)
    (freshId : Nat) (ec : DeclError) :
    (truthy (getKey nv "hooks") = false → normalizeOptions options = .ok nv →
      (st.associations.map Prod.fst).Nodup →
      (((defineAssociation typeName source target options parent normalizeOptions
          (constructAndRegister typeName target parent freshId)
          beforeAssociate afterAssociate st).state).associations.map Prod.fst).Nodup)
    ∧ (¬ target.isModel = true →
        defineAssociation typeName source target options parent normalizeOptions construct
            beforeAssociate afterAssociate st
          = ⟨st, .error .notAModel, 0⟩)
    ∧ (target.isModel = true → ¬ source.isInitialized = true →
        defineAssociation typeName source target options parent normalizeOptions construct
            beforeAssociate afterAssociate st
          = ⟨st, .error (.modelNotInitialized source.name), 0⟩)
    ∧ (target.isModel = true → source.isInitialized = true → ¬ target.isInitialized = true →
        defineAssociation typeName source target options parent normalizeOptions construct
            beforeAssociate afterAssociate st
          = ⟨st, .error (.modelNotInitialized target.name), 0⟩)
    ∧ (target.isModel = true → source.isInitialized = true → target.isInitialized = true →
        normalizeOptions options = .error e0 →
        defineAssociation typeName source target options parent normalizeOptions construct
            beforeAssociate afterAssociate st
          = ⟨st, .error e0, 0⟩)
    ∧ (target.isModel = true → source.isInitialized = true → target.isInitialized = true →
        normalizeOptions options = .ok nv → (getKey nv "as").toKeyString = aName →
        aName ∈ st.attributes →
        defineAssociation typeName source target options parent normalizeOptions construct
            beforeAssociate afterAssociate st
          = ⟨st, .error (.namingCollision source.name aName), 1⟩)
    ∧ (target.isModel = true → source.isInitialized = true → target.isInitialized = true →
        normalizeOptions options = .ok nv → (getKey nv "as").toKeyString = aName →
        aName ∉ st.attributes → lookupAssoc st aName = some existing →
        ¬ (((parent.isSome || existing.hasParentAssociation) = true)
            ∧ getAssociationsIncompatibilityStatus existing typeName target nv = none) →
        ∃ c, defineAssociation typeName source target options parent normalizeOptions
            construct beforeAssociate afterAssociate st
          = ⟨st, .error (.associationError c), 1⟩)
    ∧ (target.isModel = true → source.isInitialized = true → target.isInitialized = true →
        normalizeOptions options = .ok nv → (getKey nv "as").toKeyString = aName →
        aName ∉ st.attributes →
        assertAssociationUnique typeName target nv parent st = .ok () →
        st1 = (if truthy (getKey nv "hooks") then beforeAssociate st else st) →
        lookupAssoc st1 aName = none →
        construct nv st1 = (st2, .error ec) →
        defineAssociation typeName source target options parent normalizeOptions construct
            beforeAssociate afterAssociate st
          = ⟨st2, .error (.constructionFailed parent.isSome), 1⟩) := by
  refine ⟨?_, ?_, ?_, ?_, ?_, ?_, ?_, ?_⟩
  · intro hH hN hnd
    rcases defineAssociation_hooksOff_canonical_cases typeName source target options nv
      parent normalizeOptions beforeAssociate afterAssociate st freshId hH hN with h | ⟨rec, h⟩
    · rw [h]
      exact hnd
    · rw [h]
      exact registerAssoc_keys_nodup st _ rec hnd
  · intro hTm
    unfold defineAssociation
    simp [hTm]
  · intro hTm hSi
    unfold defineAssociation
    simp [hTm, hSi]
  · intro hTm hSi hTi
    unfold defineAssociation
    simp [hTm, hSi, hTi]
  · intro hTm hSi hTi hNe
    unfold defineAssociation
    simp [hTm, hSi, hTi, hNe]
  · intro hTm hSi hTi hN ha hattr
    exact defineAssociation_collision_error typeName source target options nv parent
      normalizeOptions construct beforeAssociate afterAssociate st aName
      hTm hSi hTi hN ha hattr
  · intro hTm hSi hTi hN ha hattr hex hno
    have hU : ∃ c, assertAssociationUnique typeName target nv parent st
        = .error (.associationError c) := by
      unfold assertAssociationUnique
      rw [ha]
      simp only [hex]
      have hb : ((parent.isSome || existing.hasParentAssociation)
          && decide (getAssociationsIncompatibilityStatus existing typeName target nv = none))
          = false := by
        rcases hb1 : (parent.isSome || existing.hasParentAssociation) with _ | _
        · rfl
        · rcases hb2 : decide
            (getAssociationsIncompatibilityStatus existing typeName target nv = none) with _ | _
          · rfl
          · exact absurd ⟨hb1, of_decide_eq_true hb2⟩ hno
      simp only [hb, Bool.false_eq_true, if_false]
      by_cases hroot : (parent.isNone && existing.rootIsSelf) = true
      · exact ⟨.sameName, by simp [hroot]⟩
      · rw [Bool.not_eq_true] at hroot
        exact ⟨.incompatible (getAssociationsIncompatibilityStatus existing typeName target nv),
          by simp [hroot]⟩
    rcases hU with ⟨c, hc⟩
    exact ⟨c, defineAssociation_unique_error typeName source target options nv parent
      normalizeOptions construct beforeAssociate afterAssociate st aName _
      hTm hSi hTi hN ha hattr hc⟩
  · intro hTm hSi hTi hN ha hattr hUniq hst1 hfree hcon
    exact defineAssociation_constructFail_eval typeName source target options nv parent
      normalizeOptions construct beforeAssociate afterAssociate st st1 st2 aName ec
      hTm hSi hTi hN ha hattr hUniq hst1 hfree hcon

/-- A concrete application of C4 (amended): declaring `posts` on a `User`
whose `posts` alias is occupied by an options-incompatible association
fails with an `AssociationError` and leaves the state untouched; and a
hooks-free declaration whose builder throws after registering surfaces
the wrapped construction failure with the builder's registration kept. -/
theorem defineAssociation_alias_exclusivity_witness :
    (∃ c, defineAssociation "HasMany" userModel postModel postsOptions none
        normalizeHasManyPost (constructAndRegister "HasMany" postModel none 1) id id childState
      = ⟨childState, .error (.associationError c), 1⟩)
    ∧ defineAssociation "HasMany" userModel postModel postsOptions none
        normalizeHasManyPost (constructRegisterThenThrow "HasMany" postModel none 1) id id
        userState0
      = ⟨registerAssoc userState0 "posts" postsAssocRecord,
          .error (.constructionFailed false), 1⟩ := by
  constructor
  · exact (defineAssociation_alias_exclusivity_atomicity "HasMany" userModel postModel
      postsOptions (okValueD (normalizeHasManyPost postsOptions)) .assertionFailed none
      normalizeHasManyPost (constructAndRegister "HasMany" postModel none 1) id id
      childState childState childState "posts" childAssocRecord 1
      .assertionFailed).2.2.2.2.2.2.1
      (by decide) (by decide) (by decide) (by decide) (by decide) (by decide) (by decide)
      (by decide)
  · exact (defineAssociation_alias_exclusivity_atomicity "HasMany" userModel postModel
      postsOptions (okValueD (normalizeHasManyPost postsOptions)) .assertionFailed none
      normalizeHasManyPost (constructRegisterThenThrow "HasMany" postModel none 1) id id
      userState0 userState0 (registerAssoc userState0 "posts" postsAssocRecord) "posts"
      childAssocRecord 1 .assertionFailed).2.2.2.2.2.2.2
      (by decide) (by decide) (by decide) (by decide) (by decide) (by decide) (by decide)
      (by decide) (by decide) (by decide)

end SequelizeAssoc
